import Mathlib

/-!
# Sales report generator (`src/App.js`)

A shallow embedding of `generateSalesReport`, the aggregation routine of the
sales report application, together with the properties of the report that the
specification states about it.

Modelling conventions.

* JavaScript objects used as dictionaries are association lists of own
  properties in insertion order (`Obj`).  The accumulators `itemQuantities` and
  `itemRevenue` are keyed by sku, an arbitrary string of the file, so their reads
  go through the prototype chain of the object literal (`Obj.read`): a sku that
  names a member of `Object.prototype` finds that member.  `salesByMonth` and the
  four maps of the report are keyed by month labels, which never name such a
  member (`toLocaleString_not_inherited`).
* `totalPrice` is an exact rational and `quantity` an integer: the records are
  the typed records handed over by the CSV parser, without the not-a-number
  sentinel.  The results of `Math.min`, `Math.max` and of the division that
  yields `avgOrders` live in `JSNumber`, the rationals extended by the three
  special values these operations produce on an empty argument list.
* `new Date(s)` is implementation defined for the strings a CSV file may hold,
  so the date parser is a parameter `newDate`; `none` is the invalid date.
-/

namespace SalesReport

/-! ## JavaScript values -/

/-- A number as `Math.min`, `Math.max` and `/` return it: a finite value, one of
the two infinities, or not-a-number. -/
inductive JSNumber where
  | num (q : ℚ)
  | posInf
  | negInf
  | nan
  deriving DecidableEq

namespace JSNumber

/-- One step of `Math.min`: not-a-number is absorbing, otherwise the smaller. -/
def min2 : JSNumber → JSNumber → JSNumber
  | nan, _ => nan
  | _, nan => nan
  | negInf, _ => negInf
  | _, negInf => negInf
  | posInf, y => y
  | x, posInf => x
  | num a, num b => num (min a b)

/-- One step of `Math.max`: not-a-number is absorbing, otherwise the larger. -/
def max2 : JSNumber → JSNumber → JSNumber
  | nan, _ => nan
  | _, nan => nan
  | posInf, _ => posInf
  | _, posInf => posInf
  | negInf, y => y
  | x, negInf => x
  | num a, num b => num (max a b)

/-- The quotient `a / b` of two finite numbers: `0 / 0` is not-a-number and a
non-zero numerator over `0` is an infinity. -/
def div (a b : ℚ) : JSNumber :=
  if b = 0 then
    if a = 0 then nan else if 0 < a then posInf else negInf
  else num (a / b)

/-- The comparison `x <= y`: false as soon as an operand is not-a-number. -/
def le : JSNumber → JSNumber → Prop
  | nan, _ => False
  | _, nan => False
  | negInf, _ => True
  | _, posInf => True
  | num a, num b => a ≤ b
  | posInf, num _ => False
  | posInf, negInf => False
  | num _, negInf => False

end JSNumber

/-- `Math.min(...args)`: `+Infinity` when there is no argument. -/
def mathMin (args : List Int) : JSNumber :=
  args.foldl (fun (acc : JSNumber) (x : Int) => JSNumber.min2 acc (JSNumber.num (x : ℚ)))
    JSNumber.posInf

/-- `Math.max(...args)`: `-Infinity` when there is no argument. -/
def mathMax (args : List Int) : JSNumber :=
  args.foldl (fun (acc : JSNumber) (x : Int) => JSNumber.max2 acc (JSNumber.num (x : ℚ)))
    JSNumber.negInf

/-- The names of the members that an object literal inherits from
`Object.prototype`. -/
def objectPrototypeMembers : List String :=
  ["constructor", "__defineGetter__", "__defineSetter__", "hasOwnProperty",
   "__lookupGetter__", "__lookupSetter__", "isPrototypeOf", "propertyIsEnumerable",
   "toString", "valueOf", "__proto__", "toLocaleString"]

/-- What a read of an accumulator property yields: `undefined`, a number,
not-a-number, or a value that is neither (an inherited function or object, or
the text that `+=` builds from one).  Such a value is truthy and converts to
not-a-number. -/
inductive JSValue (α : Type) where
  | undefined
  | number (v : α)
  | nan
  | other
  deriving DecidableEq

namespace JSValue

/-- The test `!x`. -/
def falsy {α : Type} [Zero α] [DecidableEq α] : JSValue α → Bool
  | undefined => true
  | number v => decide (v = 0)
  | nan => true
  | other => false

/-- The sum `x + q` with `q` a number: `undefined + q` is not-a-number, and a
function, an object or a text concatenates into a text. -/
def plus {α : Type} [Add α] : JSValue α → α → JSValue α
  | undefined, _ => nan
  | number v, q => number (v + q)
  | nan, _ => nan
  | other, _ => other

/-- The property after the guard `if (!x) x = 0` and `x += q`, from its value
before. -/
def tally {α : Type} [Zero α] [Add α] : JSValue α → α → JSValue α
  | undefined, q => number (0 + q)
  | number v, q => number (v + q)
  | nan, q => number (0 + q)
  | other, _ => other

end JSValue

/-- A JavaScript object used as a dictionary: its own properties, in insertion
order. -/
abbrev Obj (α : Type) := List (String × α)

namespace Obj

/-- Property read `o[k]`; `none` is `undefined`. -/
def get {α : Type} : Obj α → String → Option α
  | [], _ => none
  | (k', v) :: t, k => if k' = k then some v else get t k

/-- Property write `o[k] = v`: overwrites in place, or appends a new property. -/
def set {α : Type} : Obj α → String → α → Obj α
  | [], k, v => [(k, v)]
  | (k', v') :: t, k, v => if k' = k then (k', v) :: t else (k', v') :: set t k v

/-- Property read `o[k]` on an object literal, through its prototype: the own
property if there is one, else the inherited member if `k` names one, else
`undefined`.  The name `__proto__` is an accessor of the prototype and yields
the prototype object. -/
def read {α : Type} (o : Obj (JSValue α)) (k : String) : JSValue α :=
  if k = "__proto__" then JSValue.other
  else
    match o.get k with
    | some v => v
    | none => if k ∈ objectPrototypeMembers then JSValue.other else JSValue.undefined

/-- Property write `o[k] = v` of a number or a text on an object literal: an own
property, except for `__proto__`, whose inherited setter ignores such a value. -/
def write {α : Type} (o : Obj (JSValue α)) (k : String) (v : JSValue α) : Obj (JSValue α) :=
  if k = "__proto__" then o else o.set k v

/-- The list `Object.keys(o)`: the own keys in insertion order (the keys here are
month labels and skus, none of them an array index). -/
def keys {α : Type} (o : Obj α) : List String := o.map Prod.fst

end Obj

/-! ## Dates -/

/-- The calendar fields of a valid `Date` that the month label uses. -/
structure JSDate where
  year : Int
  month : Fin 12
  deriving DecidableEq

/-- The long month names. -/
def monthNames : List String :=
  ["January", "February", "March", "April", "May", "June", "July", "August",
   "September", "October", "November", "December"]

/-- The call `d.toLocaleString("default", { month: "long", year: "numeric" })`;
on the invalid date it is the string `Invalid Date`. -/
def toLocaleString : Option JSDate → String
  | none => "Invalid Date"
  | some d => monthNames.getD d.month.val "" ++ " " ++ toString d.year

/-! ## Records and report -/

/-- One row of the uploaded file, as `parseCSV` builds it. -/
structure Sale where
  date : String
  sku : String
  unitPrice : ℚ
  quantity : Int
  totalPrice : ℚ
  deriving DecidableEq

/-- The order statistics stored per month. -/
structure ItemStatistics where
  minOrders : JSNumber
  maxOrders : JSNumber
  avgOrders : JSNumber
  deriving DecidableEq

/-- The report object. -/
structure Report where
  totalSales : ℚ
  monthlySales : Obj ℚ
  mostPopularItem : Obj String
  highestRevenueItem : Obj String
  itemStatistics : Obj ItemStatistics

/-- The failures the specification names.  The source has no `throw`. -/
inductive ReportError where
  | InvalidDateError
  | EmptyGroupError
  deriving DecidableEq

/-- The month label of a record (lines 54-57). -/
def monthOf (newDate : String → Option JSDate) (sale : Sale) : String :=
  toLocaleString (newDate sale.date)

/-- The body of the grouping loop (lines 53-60). -/
def groupStep (newDate : String → Option JSDate) (salesByMonth : Obj (List Sale))
    (sale : Sale) : Obj (List Sale) :=
  let month := monthOf newDate sale
  let salesByMonth :=
    if (salesByMonth.get month).isNone then salesByMonth.set month [] else salesByMonth
  salesByMonth.set month (((salesByMonth.get month).getD []) ++ [sale])

/-- The object `salesByMonth` after the grouping loop. -/
def groupByMonth (newDate : String → Option JSDate) (salesData : List Sale) :
    Obj (List Sale) :=
  salesData.foldl (groupStep newDate) []

/-- The running best of the most popular item search. -/
structure MostPopular where
  quantity : Int
  sku : String
  deriving DecidableEq

/-- The running best of the highest revenue search. -/
structure HighestRevenue where
  revenue : ℚ
  sku : String
  deriving DecidableEq

/-- The body of the most popular item loop (lines 82-92).  The comparison `>`
holds only of a number: not-a-number, a text and an object are never greater. -/
def popularStep (st : Obj (JSValue Int) × MostPopular) (sale : Sale) :
    Obj (JSValue Int) × MostPopular :=
  let itemQuantities := st.1
  let mostPopular := st.2
  let itemQuantities :=
    if (itemQuantities.read sale.sku).falsy then
      itemQuantities.write sale.sku (JSValue.number 0)
    else itemQuantities
  let itemQuantities :=
    itemQuantities.write sale.sku ((itemQuantities.read sale.sku).plus sale.quantity)
  match itemQuantities.read sale.sku with
  | JSValue.number v =>
    if v > mostPopular.quantity then (itemQuantities, { quantity := v, sku := sale.sku })
    else (itemQuantities, mostPopular)
  | _ => (itemQuantities, mostPopular)

/-- The most popular item loop with its initial state (lines 80-92). -/
def popularLoop (monthData : List Sale) : Obj (JSValue Int) × MostPopular :=
  monthData.foldl popularStep ([], { quantity := 0, sku := "" })

/-- The body of the highest revenue loop (lines 97-107). -/
def revenueStep (st : Obj (JSValue ℚ) × HighestRevenue) (sale : Sale) :
    Obj (JSValue ℚ) × HighestRevenue :=
  let itemRevenue := st.1
  let highestRevenue := st.2
  let itemRevenue :=
    if (itemRevenue.read sale.sku).falsy then
      itemRevenue.write sale.sku (JSValue.number 0)
    else itemRevenue
  let itemRevenue :=
    itemRevenue.write sale.sku ((itemRevenue.read sale.sku).plus sale.totalPrice)
  match itemRevenue.read sale.sku with
  | JSValue.number v =>
    if v > highestRevenue.revenue then (itemRevenue, { revenue := v, sku := sale.sku })
    else (itemRevenue, highestRevenue)
  | _ => (itemRevenue, highestRevenue)

/-- The highest revenue loop with its initial state (lines 95-107). -/
def revenueLoop (monthData : List Sale) : Obj (JSValue ℚ) × HighestRevenue :=
  monthData.foldl revenueStep ([], { revenue := 0, sku := "" })

/-- The order statistics of the most popular item (lines 110-118). -/
def orderStatistics (monthData : List Sale) (mostPopular : MostPopular) : ItemStatistics :=
  let popularItemData := monthData.filter (fun sale => sale.sku = mostPopular.sku)
  let orderCounts := popularItemData.map (fun sale => sale.quantity)
  { minOrders := mathMin orderCounts
    maxOrders := mathMax orderCounts
    avgOrders :=
      JSNumber.div ((orderCounts.foldl (fun sum count => sum + count) 0 : Int) : ℚ)
        (orderCounts.length : ℚ) }

/-- The body of the loop over `Object.keys(salesByMonth)` (lines 72-129). -/
def processMonth (salesByMonth : Obj (List Sale)) (report : Report) (month : String) :
    Report :=
  let monthData := (salesByMonth.get month).getD []
  let monthTotalSales := monthData.foldl (fun acc sale => acc + sale.totalPrice) (0 : ℚ)
  let mostPopular := (popularLoop monthData).2
  let highestRevenue := (revenueLoop monthData).2
  let stats := orderStatistics monthData mostPopular
  { report with
    monthlySales := report.monthlySales.set month monthTotalSales
    mostPopularItem := report.mostPopularItem.set month mostPopular.sku
    highestRevenueItem := report.highestRevenueItem.set month highestRevenue.sku
    itemStatistics := report.itemStatistics.set month stats }

/-- The function `generateSalesReport` (lines 44-132): the report it hands to
`setSalesReport`.  No statement of the body throws, so the outcome is always a
report. -/
def generateSalesReport (newDate : String → Option JSDate) (salesData : List Sale) :
    Except ReportError Report :=
  let totalSales := salesData.foldl (fun acc sale => acc + sale.totalPrice) (0 : ℚ)
  let salesByMonth := groupByMonth newDate salesData
  let report : Report :=
    { totalSales := totalSales
      monthlySales := []
      mostPopularItem := []
      highestRevenueItem := []
      itemStatistics := [] }
  Except.ok (salesByMonth.keys.foldl (processMonth salesByMonth) report)

/-! ## Scenario data -/

/-- A date parser for the examples: ISO dates of January and February 2024. -/
def demoDate (s : String) : Option JSDate :=
  if s = "2024-01-15" then some { year := 2024, month := 0 }
  else if s = "2024-02-10" then some { year := 2024, month := 1 }
  else none

/-- The scenario of the specification: A sells 2 and 1, B sells 5, in January 2024. -/
def scenario : List Sale :=
  [ { date := "2024-01-15", sku := "A", unitPrice := 10, quantity := 2, totalPrice := 20 },
    { date := "2024-01-15", sku := "B", unitPrice := 3, quantity := 5, totalPrice := 15 },
    { date := "2024-01-15", sku := "A", unitPrice := 10, quantity := 1, totalPrice := 10 } ]

/-- The scenario with its first two records exchanged. -/
def scenarioSwapped : List Sale :=
  [ { date := "2024-01-15", sku := "B", unitPrice := 3, quantity := 5, totalPrice := 15 },
    { date := "2024-01-15", sku := "A", unitPrice := 10, quantity := 2, totalPrice := 20 },
    { date := "2024-01-15", sku := "A", unitPrice := 10, quantity := 1, totalPrice := 10 } ]

/-- Two months that share the sku A. -/
def twoMonths : List Sale :=
  [ { date := "2024-01-15", sku := "A", unitPrice := 10, quantity := 2, totalPrice := 20 },
    { date := "2024-02-10", sku := "A", unitPrice := 10, quantity := 7, totalPrice := 70 },
    { date := "2024-01-15", sku := "B", unitPrice := 3, quantity := 5, totalPrice := 15 } ]

/-- A tie: A reaches 3 with its first record, B reaches 3 only with its second. -/
def tieScenario : List Sale :=
  [ { date := "2024-01-15", sku := "A", unitPrice := 1, quantity := 3, totalPrice := 3 },
    { date := "2024-01-15", sku := "B", unitPrice := 1, quantity := 2, totalPrice := 2 },
    { date := "2024-01-15", sku := "B", unitPrice := 1, quantity := 1, totalPrice := 1 } ]

/-- A month whose only record has quantity 0. -/
def zeroOrders : List Sale :=
  [ { date := "2024-01-15", sku := "A", unitPrice := 10, quantity := 0, totalPrice := 0 } ]

/-- A record whose date does not parse, next to one whose date does. -/
def badDate : List Sale :=
  [ { date := "not a date", sku := "A", unitPrice := 5, quantity := 1, totalPrice := 5 },
    { date := "2024-01-15", sku := "B", unitPrice := 3, quantity := 5, totalPrice := 15 } ]

/-- A month in which the sku with the greatest quantity and revenue names a
member of `Object.prototype`. -/
def inheritedSku : List Sale :=
  [ { date := "2024-01-15", sku := "constructor", unitPrice := 1, quantity := 5,
      totalPrice := 5 },
    { date := "2024-01-15", sku := "B", unitPrice := 1, quantity := 2, totalPrice := 2 } ]

/-- A month whose only record has a sku that names a member of
`Object.prototype`. -/
def inheritedOnly : List Sale :=
  [ { date := "2024-01-15", sku := "constructor", unitPrice := 1, quantity := 5,
      totalPrice := 5 } ]

/-! ## Vocabulary of the specification -/

/-- The records of the month `m`, in input order. -/
def bucket (newDate : String → Option JSDate) (salesData : List Sale) (m : String) :
    List Sale :=
  salesData.filter (fun sale => decide (monthOf newDate sale = m))

/-- The cumulative quantity of the sku `s` over the records `recs`. -/
def totalQuantity (recs : List Sale) (s : String) : Int :=
  ((recs.filter (fun sale => decide (sale.sku = s))).map (fun sale => sale.quantity)).sum

/-- The cumulative revenue of the sku `s` over the records `recs`. -/
def totalRevenue (recs : List Sale) (s : String) : ℚ :=
  ((recs.filter (fun sale => decide (sale.sku = s))).map (fun sale => sale.totalPrice)).sum

/-- The individual order quantities of the sku `s` in month `m`, one per record. -/
def orderQuantities (newDate : String → Option JSDate) (salesData : List Sale)
    (m s : String) : List Int :=
  ((bucket newDate salesData m).filter (fun sale => decide (sale.sku = s))).map
    (fun sale => sale.quantity)

/-! ## Dictionaries -/

namespace Obj

theorem get_set_same {α : Type} (o : Obj α) (k : String) (v : α) :
    (o.set k v).get k = some v := by
  induction o with
  | nil => simp [set, get]
  | cons p t ih =>
    obtain ⟨k', v'⟩ := p
    by_cases h : k' = k
    · simp [set, get, h]
    · simp [set, get, h, ih]

theorem get_set_ne {α : Type} (o : Obj α) {k m : String} (v : α) (h : k ≠ m) :
    (o.set k v).get m = o.get m := by
  induction o with
  | nil => simp [set, get, h]
  | cons p t ih =>
    obtain ⟨k', v'⟩ := p
    by_cases h1 : k' = k
    · subst h1; simp [set, get, h]
    · by_cases h2 : k' = m
      · subst h2; simp [set, get, h1]
      · simp [set, get, h1, h2, ih]

theorem get_set {α : Type} (o : Obj α) (k m : String) (v : α) :
    (o.set k v).get m = if k = m then some v else o.get m := by
  by_cases h : k = m
  · subst h; simp [get_set_same]
  · simp [h, get_set_ne o v h]

theorem keys_set {α : Type} (o : Obj α) (k : String) (v : α) :
    (o.set k v).keys = if k ∈ o.keys then o.keys else o.keys ++ [k] := by
  induction o with
  | nil => simp [set, keys]
  | cons p t ih =>
    obtain ⟨k', v'⟩ := p
    by_cases h : k' = k
    · subst h; simp [set, keys]
    · have h' : ¬ k = k' := fun e => h e.symm
      simp only [keys] at ih
      by_cases hm : k ∈ List.map Prod.fst t
      · simp [set, keys, h, h', hm, ih]
      · simp [set, keys, h, h', hm, ih]

theorem get_eq_none_iff {α : Type} (o : Obj α) (k : String) :
    o.get k = none ↔ k ∉ o.keys := by
  induction o with
  | nil => simp [get, keys]
  | cons p t ih =>
    obtain ⟨k', v'⟩ := p
    simp only [keys] at ih
    by_cases h : k' = k
    · subst h; simp [get, keys]
    · have h' : ¬ k = k' := fun e => h e.symm
      simp [get, keys, h, h', ih]

end Obj

/-! ## Grouping by month -/

theorem groupStep_get (newDate : String → Option JSDate) (o : Obj (List Sale)) (x : Sale)
    (m : String) :
    (groupStep newDate o x).get m =
      if monthOf newDate x = m then some ((o.get m).getD [] ++ [x]) else o.get m := by
  unfold groupStep
  by_cases h : monthOf newDate x = m
  · subst h
    simp only [Obj.get_set_same, if_true]
    cases hg : o.get (monthOf newDate x) <;> simp [Obj.get_set_same, hg]
  · simp only [Obj.get_set_ne _ _ h, h, if_false]
    split
    · exact Obj.get_set_ne _ _ h
    · rfl

theorem groupByMonth_append (newDate : String → Option JSDate) (xs : List Sale) (x : Sale) :
    groupByMonth newDate (xs ++ [x]) = groupStep newDate (groupByMonth newDate xs) x := by
  simp [groupByMonth, List.foldl_append]

theorem groupByMonth_get (newDate : String → Option JSDate) (xs : List Sale) (m : String) :
    (groupByMonth newDate xs).get m =
      if bucket newDate xs m = [] then none else some (bucket newDate xs m) := by
  induction xs using List.reverseRecOn with
  | nil => simp [groupByMonth, bucket, Obj.get]
  | append_singleton xs x ih =>
    rw [groupByMonth_append, groupStep_get, ih]
    have happ : bucket newDate (xs ++ [x]) m =
        bucket newDate xs m ++ (if monthOf newDate x = m then [x] else []) := by
      by_cases h : monthOf newDate x = m <;> simp [bucket, List.filter_append, h]
    rw [happ]
    by_cases h : monthOf newDate x = m
    · by_cases hb : bucket newDate xs m = [] <;> simp [h, hb]
    · simp [h]

theorem bucket_eq_nil_iff (newDate : String → Option JSDate) (xs : List Sale) (m : String) :
    bucket newDate xs m = [] ↔ ¬ ∃ r ∈ xs, monthOf newDate r = m := by
  simp [bucket, List.filter_eq_nil_iff]

theorem mem_keys_groupByMonth (newDate : String → Option JSDate) (xs : List Sale)
    (m : String) :
    m ∈ (groupByMonth newDate xs).keys ↔ bucket newDate xs m ≠ [] := by
  have h := Obj.get_eq_none_iff (groupByMonth newDate xs) m
  rw [groupByMonth_get] at h
  by_cases hb : bucket newDate xs m = []
  · simp [hb] at h; simp [hb, h]
  · simp [hb] at h; simp [hb, h]

/-! ## The loop over the months -/

theorem foldl_processMonth_totalSales (sbm : Obj (List Sale)) (ks : List String)
    (rep : Report) :
    (ks.foldl (processMonth sbm) rep).totalSales = rep.totalSales := by
  induction ks generalizing rep with
  | nil => rfl
  | cons k ks ih => rw [List.foldl_cons, ih]; rfl

theorem foldl_processMonth_keys (sbm : Obj (List Sale)) (ks : List String) (rep : Report)
    (h1 : rep.mostPopularItem.keys = rep.monthlySales.keys)
    (h2 : rep.highestRevenueItem.keys = rep.monthlySales.keys)
    (h3 : rep.itemStatistics.keys = rep.monthlySales.keys) :
    (ks.foldl (processMonth sbm) rep).mostPopularItem.keys =
        (ks.foldl (processMonth sbm) rep).monthlySales.keys ∧
      (ks.foldl (processMonth sbm) rep).highestRevenueItem.keys =
        (ks.foldl (processMonth sbm) rep).monthlySales.keys ∧
      (ks.foldl (processMonth sbm) rep).itemStatistics.keys =
        (ks.foldl (processMonth sbm) rep).monthlySales.keys := by
  induction ks generalizing rep with
  | nil => exact ⟨h1, h2, h3⟩
  | cons k ks ih =>
    rw [List.foldl_cons]
    apply ih
    · simp only [processMonth, Obj.keys_set, h1]
    · simp only [processMonth, Obj.keys_set, h2]
    · simp only [processMonth, Obj.keys_set, h3]

theorem foldl_processMonth_get (sbm : Obj (List Sale)) (ks : List String) (rep : Report)
    (m : String) :
    (ks.foldl (processMonth sbm) rep).monthlySales.get m =
        (if m ∈ ks then
          some (((sbm.get m).getD []).foldl (fun acc sale => acc + sale.totalPrice) (0 : ℚ))
        else rep.monthlySales.get m) ∧
      (ks.foldl (processMonth sbm) rep).mostPopularItem.get m =
        (if m ∈ ks then some (popularLoop ((sbm.get m).getD [])).2.sku
        else rep.mostPopularItem.get m) ∧
      (ks.foldl (processMonth sbm) rep).highestRevenueItem.get m =
        (if m ∈ ks then some (revenueLoop ((sbm.get m).getD [])).2.sku
        else rep.highestRevenueItem.get m) ∧
      (ks.foldl (processMonth sbm) rep).itemStatistics.get m =
        (if m ∈ ks then
          some (orderStatistics ((sbm.get m).getD []) (popularLoop ((sbm.get m).getD [])).2)
        else rep.itemStatistics.get m) := by
  induction ks generalizing rep with
  | nil => simp
  | cons k ks ih =>
    rw [List.foldl_cons]
    obtain ⟨i1, i2, i3, i4⟩ := ih (processMonth sbm rep k)
    rw [i1, i2, i3, i4]
    by_cases hm : m ∈ ks
    · simp [hm]
    · by_cases hk : k = m
      · subst hk; simp [hm, processMonth, Obj.get_set_same]
      · have hk' : ¬ m = k := fun e => hk e.symm
        simp [hm, hk', processMonth, Obj.get_set_ne _ _ hk]

/-- The report of `generateSalesReport`, month by month: the function returns,
and the four maps hold, for a month with records, the values computed from that
month's records, and nothing for any other key. -/
theorem generateSalesReport_spec (newDate : String → Option JSDate) (xs : List Sale) :
    ∃ rep, generateSalesReport newDate xs = Except.ok rep ∧
      rep.totalSales = xs.foldl (fun acc sale => acc + sale.totalPrice) (0 : ℚ) ∧
      (rep.mostPopularItem.keys = rep.monthlySales.keys ∧
        rep.highestRevenueItem.keys = rep.monthlySales.keys ∧
        rep.itemStatistics.keys = rep.monthlySales.keys) ∧
      ∀ m,
        (bucket newDate xs m = [] →
          rep.monthlySales.get m = none ∧ rep.mostPopularItem.get m = none ∧
            rep.highestRevenueItem.get m = none ∧ rep.itemStatistics.get m = none) ∧
        (bucket newDate xs m ≠ [] →
          rep.monthlySales.get m =
              some ((bucket newDate xs m).foldl (fun acc sale => acc + sale.totalPrice) 0) ∧
            rep.mostPopularItem.get m = some (popularLoop (bucket newDate xs m)).2.sku ∧
            rep.highestRevenueItem.get m = some (revenueLoop (bucket newDate xs m)).2.sku ∧
            rep.itemStatistics.get m =
              some (orderStatistics (bucket newDate xs m)
                (popularLoop (bucket newDate xs m)).2)) := by
  refine ⟨_, rfl, ?_, ?_, ?_⟩
  · exact foldl_processMonth_totalSales _ _ _
  · exact foldl_processMonth_keys _ _ _ rfl rfl rfl
  · intro m
    obtain ⟨g1, g2, g3, g4⟩ := foldl_processMonth_get (groupByMonth newDate xs)
      (groupByMonth newDate xs).keys
      { totalSales := xs.foldl (fun acc sale => acc + sale.totalPrice) (0 : ℚ)
        monthlySales := []
        mostPopularItem := []
        highestRevenueItem := []
        itemStatistics := [] } m
    constructor
    · intro hb
      have hk : m ∉ (groupByMonth newDate xs).keys := by
        rw [mem_keys_groupByMonth]; simp [hb]
      rw [g1, g2, g3, g4]
      simp [hk, Obj.get]
    · intro hb
      have hk : m ∈ (groupByMonth newDate xs).keys := by
        rw [mem_keys_groupByMonth]; exact hb
      have hg : ((groupByMonth newDate xs).get m).getD [] = bucket newDate xs m := by
        rw [groupByMonth_get]; simp [hb]
      rw [g1, g2, g3, g4]
      simp [hk, hg]

/-! ## Sums -/

theorem foldl_totalPrice (l : List Sale) (a : ℚ) :
    l.foldl (fun acc sale => acc + sale.totalPrice) a =
      a + (l.map (fun sale => sale.totalPrice)).sum := by
  induction l generalizing a with
  | nil => simp
  | cons x l ih => simp [List.foldl_cons, ih, add_assoc]

/-! ## Reads and writes through the prototype -/

namespace Obj

theorem read_proto {α : Type} (o : Obj (JSValue α)) : o.read "__proto__" = JSValue.other := by
  simp [read]

theorem read_write_same {α : Type} (o : Obj (JSValue α)) (k : String) (v : JSValue α)
    (hk : k ≠ "__proto__") : (o.write k v).read k = v := by
  simp [read, write, hk, get_set_same]

theorem read_write_ne {α : Type} (o : Obj (JSValue α)) {k s : String} (v : JSValue α)
    (h : k ≠ s) : (o.write k v).read s = o.read s := by
  unfold read write
  by_cases hk : k = "__proto__"
  · simp [hk]
  · simp [hk, get_set_ne o v h]

theorem read_nil {α : Type} (s : String) :
    read ([] : Obj (JSValue α)) s =
      if s ∈ objectPrototypeMembers then JSValue.other else JSValue.undefined := by
  by_cases hs : s = "__proto__"
  · subst hs; simp [read, objectPrototypeMembers]
  · simp [read, hs, get]

/-- The guard `if (!o[k]) o[k] = 0` followed by `o[k] += q`, read at any key. -/
theorem read_guard_plus {α : Type} [Zero α] [Add α] [DecidableEq α] (o : Obj (JSValue α))
    (k s : String) (q : α) :
    (((if (o.read k).falsy then o.write k (JSValue.number 0) else o).write k
        (((if (o.read k).falsy then o.write k (JSValue.number 0) else o).read k).plus q)).read
        s) =
      if k = s then (o.read s).tally q else o.read s := by
  by_cases hks : k = s
  · subst hks
    rw [if_pos rfl]
    by_cases hp : k = "__proto__"
    · subst hp; simp [read_proto, JSValue.tally]
    · rw [read_write_same _ _ _ hp]
      cases hr : o.read k with
      | undefined => simp [JSValue.falsy, read_write_same _ _ _ hp, JSValue.plus, JSValue.tally]
      | number v =>
        by_cases hv : v = 0
        · subst hv
          simp [JSValue.falsy, read_write_same _ _ _ hp, JSValue.plus, JSValue.tally]
        · simp [JSValue.falsy, hv, hr, JSValue.plus, JSValue.tally]
      | nan => simp [JSValue.falsy, read_write_same _ _ _ hp, JSValue.plus, JSValue.tally]
      | other => simp [JSValue.falsy, hr, JSValue.plus, JSValue.tally]
  · rw [if_neg hks, read_write_ne _ _ hks]
    by_cases hf : (o.read k).falsy = true
    · rw [if_pos hf, read_write_ne _ _ hks]
    · rw [if_neg hf]

end Obj

/-! ## The running best loops -/

theorem popularStep_fst (st : Obj (JSValue Int) × MostPopular) (r : Sale) :
    (popularStep st r).1 =
      (if (st.1.read r.sku).falsy then st.1.write r.sku (JSValue.number 0) else st.1).write
        r.sku
        (((if (st.1.read r.sku).falsy then st.1.write r.sku (JSValue.number 0)
          else st.1).read r.sku).plus r.quantity) := by
  unfold popularStep
  simp only []
  split
  · split <;> rfl
  · rfl

theorem popularStep_read (st : Obj (JSValue Int) × MostPopular) (r : Sale) (s : String) :
    (popularStep st r).1.read s =
      if r.sku = s then (st.1.read s).tally r.quantity else st.1.read s := by
  rw [popularStep_fst, Obj.read_guard_plus]

theorem popularStep_snd (st : Obj (JSValue Int) × MostPopular) (r : Sale) :
    (popularStep st r).2 =
      match (popularStep st r).1.read r.sku with
      | JSValue.number v =>
        if v > st.2.quantity then { quantity := v, sku := r.sku } else st.2
      | _ => st.2 := by
  rw [popularStep_fst]
  unfold popularStep
  simp only []
  split
  · split <;> rfl
  · rfl

theorem popularStep_best (st : Obj (JSValue Int) × MostPopular) (r : Sale) :
    (popularStep st r).2 =
      match (st.1.read r.sku).tally r.quantity with
      | JSValue.number v =>
        if v > st.2.quantity then { quantity := v, sku := r.sku } else st.2
      | _ => st.2 := by
  rw [popularStep_snd, popularStep_read, if_pos rfl]

theorem popularLoop_append (l : List Sale) (r : Sale) :
    popularLoop (l ++ [r]) = popularStep (popularLoop l) r := by
  simp [popularLoop, List.foldl_append]

theorem totalQuantity_nil (s : String) : totalQuantity [] s = 0 := by
  simp [totalQuantity]

theorem totalQuantity_append (l : List Sale) (r : Sale) (s : String) :
    totalQuantity (l ++ [r]) s = totalQuantity l s + (if r.sku = s then r.quantity else 0) := by
  by_cases h : r.sku = s <;> simp [totalQuantity, List.filter_append, h]

theorem totalQuantity_append_list (l l' : List Sale) (s : String) :
    totalQuantity (l ++ l') s = totalQuantity l s + totalQuantity l' s := by
  simp [totalQuantity, List.filter_append]

theorem totalQuantity_eq_zero (l : List Sale) (s : String) (h : ∀ r ∈ l, r.sku ≠ s) :
    totalQuantity l s = 0 := by
  have : l.filter (fun sale => decide (sale.sku = s)) = [] := by
    rw [List.filter_eq_nil_iff]
    intro r hr
    simpa using h r hr
  simp [totalQuantity, this]

/-- What `itemQuantities` holds after the loop: the inherited member or the text
built from it for a sku that names one, else nothing for a sku not seen, else
the cumulative quantity. -/
theorem popularLoop_read (l : List Sale) (s : String) :
    (popularLoop l).1.read s =
      if s ∈ objectPrototypeMembers then JSValue.other
      else if ∃ r ∈ l, r.sku = s then JSValue.number (totalQuantity l s)
      else JSValue.undefined := by
  induction l using List.reverseRecOn with
  | nil =>
    have h := Obj.read_nil (α := Int) s
    simpa [popularLoop] using h
  | append_singleton l r ih =>
    rw [popularLoop_append, popularStep_read, ih, totalQuantity_append]
    by_cases hP : s ∈ objectPrototypeMembers
    · by_cases hrs : r.sku = s <;> simp [hP, hrs, JSValue.tally]
    · by_cases hrs : r.sku = s
      · have hnew : ∃ x ∈ l ++ [r], x.sku = s := ⟨r, by simp, hrs⟩
        by_cases hex : ∃ x ∈ l, x.sku = s
        · simp only [hP, hrs, if_false, if_true, if_pos hex, if_pos hnew, JSValue.tally]
        · have h0 : totalQuantity l s = 0 :=
            totalQuantity_eq_zero l s (fun x hx hxs => hex ⟨x, hx, hxs⟩)
          simp only [hP, hrs, if_false, if_true, if_neg hex, if_pos hnew, JSValue.tally, h0]
      · by_cases hex : ∃ x ∈ l, x.sku = s
        · have hex' : ∃ x ∈ l ++ [r], x.sku = s := by
            obtain ⟨x, hx, hxs⟩ := hex
            exact ⟨x, by simp [hx], hxs⟩
          simp only [hP, hrs, if_false, if_pos hex, if_pos hex', add_zero]
        · have hex' : ¬ ∃ x ∈ l ++ [r], x.sku = s := by
            rintro ⟨x, hx, hxs⟩
            rcases List.mem_append.mp hx with hx | hx
            · exact hex ⟨x, hx, hxs⟩
            · rw [List.mem_singleton] at hx; subst hx; exact hrs hxs
          simp only [hP, hrs, if_false, if_neg hex, if_neg hex']

/-- The running best after one more record: the record's sku takes over exactly
when it names no inherited member and its cumulative quantity is strictly
greater than the best so far. -/
theorem popularLoop_best_append (l : List Sale) (r : Sale) :
    (popularLoop (l ++ [r])).2 =
      if r.sku ∉ objectPrototypeMembers ∧
          totalQuantity (l ++ [r]) r.sku > (popularLoop l).2.quantity then
        { quantity := totalQuantity (l ++ [r]) r.sku, sku := r.sku }
      else (popularLoop l).2 := by
  rw [popularLoop_append, popularStep_best, popularLoop_read, totalQuantity_append]
  by_cases hP : r.sku ∈ objectPrototypeMembers
  · simp [hP, JSValue.tally]
  · by_cases hex : ∃ x ∈ l, x.sku = r.sku
    · simp [hP, hex, JSValue.tally]
    · have h0 : totalQuantity l r.sku = 0 :=
        totalQuantity_eq_zero l r.sku (fun x hx hxs => hex ⟨x, hx, hxs⟩)
      simp [hP, hex, JSValue.tally, h0]

theorem totalQuantity_nonneg (l : List Sale) (hq : ∀ r ∈ l, 0 ≤ r.quantity) (s : String) :
    0 ≤ totalQuantity l s := by
  unfold totalQuantity
  apply List.sum_nonneg
  intro q hmem
  simp only [List.mem_map, List.mem_filter] at hmem
  obtain ⟨r, ⟨hr, -⟩, rfl⟩ := hmem
  exact hq r hr

theorem totalQuantity_le_append (l l' : List Sale) (hq : ∀ r ∈ l', 0 ≤ r.quantity)
    (s : String) : totalQuantity l s ≤ totalQuantity (l ++ l') s := by
  rw [totalQuantity_append_list]
  have := totalQuantity_nonneg l' hq s
  omega

theorem totalQuantity_pos_of_mem (l : List Sale) (hq : ∀ r ∈ l, 0 ≤ r.quantity) (r : Sale)
    (hr : r ∈ l) (hpos : 0 < r.quantity) : 0 < totalQuantity l r.sku := by
  obtain ⟨l1, l2, rfl⟩ := List.append_of_mem hr
  have e : l1 ++ r :: l2 = (l1 ++ [r]) ++ l2 := by simp
  rw [e, totalQuantity_append_list, totalQuantity_append]
  have h1 := totalQuantity_nonneg l1 (fun x hx => hq x (by simp [hx])) r.sku
  have h2 := totalQuantity_nonneg l2 (fun x hx => hq x (by simp [hx])) r.sku
  simp only [if_true]
  omega

/-- The cumulative quantity of a sku that names no inherited member is at most
the running best. -/
theorem popularLoop_total_le (l : List Sale) (s : String)
    (hs : s ∉ objectPrototypeMembers) :
    totalQuantity l s ≤ (popularLoop l).2.quantity := by
  induction l using List.reverseRecOn with
  | nil => simp [popularLoop, totalQuantity]
  | append_singleton l r ih =>
    rw [popularLoop_best_append]
    by_cases hgt : r.sku ∉ objectPrototypeMembers ∧
        totalQuantity (l ++ [r]) r.sku > (popularLoop l).2.quantity
    · rw [if_pos hgt]
      by_cases hrs : r.sku = s
      · subst hrs; exact le_refl _
      · rw [totalQuantity_append, if_neg hrs, add_zero]
        exact le_trans ih (le_of_lt hgt.2)
    · rw [if_neg hgt]
      by_cases hrs : r.sku = s
      · subst hrs
        by_contra hc
        exact hgt ⟨hs, not_le.mp hc⟩
      · rw [totalQuantity_append, if_neg hrs, add_zero]
        exact ih

/-- With non-negative quantities the running best never exceeds the cumulative
quantity of the sku that holds it. -/
theorem popularLoop_best_le (l : List Sale) (hq : ∀ r ∈ l, 0 ≤ r.quantity) :
    (popularLoop l).2.quantity ≤ totalQuantity l (popularLoop l).2.sku := by
  induction l using List.reverseRecOn with
  | nil => simp [popularLoop, totalQuantity]
  | append_singleton l r ih =>
    have hl : ∀ x ∈ l, 0 ≤ x.quantity := fun x hx => hq x (by simp [hx])
    have hr : ∀ x ∈ [r], 0 ≤ x.quantity := fun x hx => hq x (by simp_all)
    rw [popularLoop_best_append]
    by_cases hgt : r.sku ∉ objectPrototypeMembers ∧
        totalQuantity (l ++ [r]) r.sku > (popularLoop l).2.quantity
    · rw [if_pos hgt]
    · rw [if_neg hgt]
      exact le_trans (ih hl) (totalQuantity_le_append l [r] hr _)

/-- The running best is the initial placeholder, or a positive quantity held by
the sku of a record seen, which names no inherited member. -/
theorem popularLoop_best_cases (l : List Sale) :
    ((popularLoop l).2.sku = "" ∧ (popularLoop l).2.quantity = 0) ∨
      (0 < (popularLoop l).2.quantity ∧
        (popularLoop l).2.sku ∉ objectPrototypeMembers ∧
        ∃ r ∈ l, r.sku = (popularLoop l).2.sku) := by
  induction l using List.reverseRecOn with
  | nil => left; simp [popularLoop]
  | append_singleton l r ih =>
    rw [popularLoop_best_append]
    by_cases hgt : r.sku ∉ objectPrototypeMembers ∧
        totalQuantity (l ++ [r]) r.sku > (popularLoop l).2.quantity
    · rw [if_pos hgt]
      right
      refine ⟨?_, hgt.1, r, by simp, rfl⟩
      have h0 : 0 ≤ (popularLoop l).2.quantity := by
        rcases ih with h | h
        · exact le_of_eq h.2.symm
        · exact le_of_lt h.1
      exact lt_of_le_of_lt h0 hgt.2
    · rw [if_neg hgt]
      rcases ih with h | ⟨h1, h2, x, hx, hxs⟩
      · exact Or.inl h
      · exact Or.inr ⟨h1, h2, x, by simp [hx], hxs⟩

/-- With non-negative quantities and a record of positive quantity whose sku
names no inherited member, the running best is held by the sku of a record. -/
theorem popularLoop_sku_mem_of_pos (l : List Sale) (hq : ∀ r ∈ l, 0 ≤ r.quantity)
    (hpos : ∃ r ∈ l, 0 < r.quantity ∧ r.sku ∉ objectPrototypeMembers) :
    ∃ r ∈ l, r.sku = (popularLoop l).2.sku := by
  obtain ⟨r0, hr0, hr0q, hr0P⟩ := hpos
  have hpos0 := totalQuantity_pos_of_mem l hq r0 hr0 hr0q
  have hle := popularLoop_total_le l r0.sku hr0P
  rcases popularLoop_best_cases l with ⟨-, h0⟩ | ⟨-, -, h⟩
  · omega
  · exact h

/-- Once a sku that names no inherited member has reached the month's greatest
total `M` before any other, the running best is that sku with quantity `M`,
whatever follows. -/
theorem popularLoop_first_to_reach (M : Int) (pre : List Sale) (r0 : Sale)
    (post : List Sale) (hq : ∀ r ∈ pre ++ r0 :: post, 0 ≤ r.quantity)
    (hP : r0.sku ∉ objectPrototypeMembers)
    (hmax : ∀ s, totalQuantity (pre ++ r0 :: post) s ≤ M)
    (hpre : ∀ s, totalQuantity pre s < M)
    (hr0 : totalQuantity (pre ++ [r0]) r0.sku = M) :
    (popularLoop (pre ++ r0 :: post)).2 = { quantity := M, sku := r0.sku } := by
  induction post using List.reverseRecOn with
  | nil =>
    have hqpre : ∀ r ∈ pre, 0 ≤ r.quantity := fun x hx => hq x (by simp [hx])
    have hb := popularLoop_best_le pre hqpre
    have hlt := hpre (popularLoop pre).2.sku
    rw [popularLoop_best_append, hr0, if_pos ⟨hP, by omega⟩]
  | append_singleton post x ih =>
    have e : pre ++ r0 :: (post ++ [x]) = (pre ++ r0 :: post) ++ [x] := by simp
    rw [e] at hq hmax ⊢
    have hq' : ∀ r ∈ pre ++ r0 :: post, 0 ≤ r.quantity :=
      fun y hy => hq y (List.mem_append_left _ hy)
    have hx : ∀ r ∈ [x], 0 ≤ r.quantity :=
      fun y hy => hq y (List.mem_append_right _ hy)
    have hmax' : ∀ s, totalQuantity (pre ++ r0 :: post) s ≤ M :=
      fun s => le_trans (totalQuantity_le_append _ [x] hx s) (hmax s)
    have hbest := ih hq' hmax'
    rw [popularLoop_best_append, hbest]
    have := hmax x.sku
    rw [if_neg (by rintro ⟨-, h⟩; simp only [gt_iff_lt] at h; omega)]

/-- Some record is the first after which a cumulative quantity reaches `M`. -/
theorem exists_first_to_reach (M : Int) (hM : 0 < M) (l : List Sale)
    (hatt : ∃ s, M ≤ totalQuantity l s) :
    ∃ pre r post, l = pre ++ r :: post ∧ (∀ s, totalQuantity pre s < M) ∧
      M ≤ totalQuantity (pre ++ [r]) r.sku := by
  induction l using List.reverseRecOn with
  | nil =>
    obtain ⟨s, hs⟩ := hatt
    rw [totalQuantity_nil] at hs
    omega
  | append_singleton l x ih =>
    by_cases h : ∃ s, M ≤ totalQuantity l s
    · obtain ⟨pre, r, post, e, h1, h2⟩ := ih h
      exact ⟨pre, r, post ++ [x], by simp [e], h1, h2⟩
    · have hall : ∀ s, totalQuantity l s < M := fun s => by
        by_contra hc
        exact h ⟨s, not_lt.mp hc⟩
      refine ⟨l, x, [], rfl, hall, ?_⟩
      obtain ⟨s, hs⟩ := hatt
      by_cases hxs : x.sku = s
      · subst hxs; exact hs
      · rw [totalQuantity_append, if_neg hxs, add_zero] at hs
        have := hall s
        omega

theorem revenueStep_fst (st : Obj (JSValue ℚ) × HighestRevenue) (r : Sale) :
    (revenueStep st r).1 =
      (if (st.1.read r.sku).falsy then st.1.write r.sku (JSValue.number 0) else st.1).write
        r.sku
        (((if (st.1.read r.sku).falsy then st.1.write r.sku (JSValue.number 0)
          else st.1).read r.sku).plus r.totalPrice) := by
  unfold revenueStep
  simp only []
  split
  · split <;> rfl
  · rfl

theorem revenueStep_read (st : Obj (JSValue ℚ) × HighestRevenue) (r : Sale) (s : String) :
    (revenueStep st r).1.read s =
      if r.sku = s then (st.1.read s).tally r.totalPrice else st.1.read s := by
  rw [revenueStep_fst, Obj.read_guard_plus]

theorem revenueStep_snd (st : Obj (JSValue ℚ) × HighestRevenue) (r : Sale) :
    (revenueStep st r).2 =
      match (revenueStep st r).1.read r.sku with
      | JSValue.number v =>
        if v > st.2.revenue then { revenue := v, sku := r.sku } else st.2
      | _ => st.2 := by
  rw [revenueStep_fst]
  unfold revenueStep
  simp only []
  split
  · split <;> rfl
  · rfl

theorem revenueStep_best (st : Obj (JSValue ℚ) × HighestRevenue) (r : Sale) :
    (revenueStep st r).2 =
      match (st.1.read r.sku).tally r.totalPrice with
      | JSValue.number v =>
        if v > st.2.revenue then { revenue := v, sku := r.sku } else st.2
      | _ => st.2 := by
  rw [revenueStep_snd, revenueStep_read, if_pos rfl]

theorem revenueLoop_append (l : List Sale) (r : Sale) :
    revenueLoop (l ++ [r]) = revenueStep (revenueLoop l) r := by
  simp [revenueLoop, List.foldl_append]

theorem totalRevenue_nil (s : String) : totalRevenue [] s = 0 := by
  simp [totalRevenue]

theorem totalRevenue_append (l : List Sale) (r : Sale) (s : String) :
    totalRevenue (l ++ [r]) s = totalRevenue l s + (if r.sku = s then r.totalPrice else 0) := by
  by_cases h : r.sku = s <;> simp [totalRevenue, List.filter_append, h]

theorem totalRevenue_append_list (l l' : List Sale) (s : String) :
    totalRevenue (l ++ l') s = totalRevenue l s + totalRevenue l' s := by
  simp [totalRevenue, List.filter_append]

theorem totalRevenue_eq_zero (l : List Sale) (s : String) (h : ∀ r ∈ l, r.sku ≠ s) :
    totalRevenue l s = 0 := by
  have : l.filter (fun sale => decide (sale.sku = s)) = [] := by
    rw [List.filter_eq_nil_iff]
    intro r hr
    simpa using h r hr
  simp [totalRevenue, this]

/-- What `itemRevenue` holds after the loop: the inherited member or the text
built from it for a sku that names one, else nothing for a sku not seen, else
the cumulative revenue. -/
theorem revenueLoop_read (l : List Sale) (s : String) :
    (revenueLoop l).1.read s =
      if s ∈ objectPrototypeMembers then JSValue.other
      else if ∃ r ∈ l, r.sku = s then JSValue.number (totalRevenue l s)
      else JSValue.undefined := by
  induction l using List.reverseRecOn with
  | nil =>
    have h := Obj.read_nil (α := ℚ) s
    simpa [revenueLoop] using h
  | append_singleton l r ih =>
    rw [revenueLoop_append, revenueStep_read, ih, totalRevenue_append]
    by_cases hP : s ∈ objectPrototypeMembers
    · by_cases hrs : r.sku = s <;> simp [hP, hrs, JSValue.tally]
    · by_cases hrs : r.sku = s
      · have hnew : ∃ x ∈ l ++ [r], x.sku = s := ⟨r, by simp, hrs⟩
        by_cases hex : ∃ x ∈ l, x.sku = s
        · simp only [hP, hrs, if_false, if_true, if_pos hex, if_pos hnew, JSValue.tally]
        · have h0 : totalRevenue l s = 0 :=
            totalRevenue_eq_zero l s (fun x hx hxs => hex ⟨x, hx, hxs⟩)
          simp only [hP, hrs, if_false, if_true, if_neg hex, if_pos hnew, JSValue.tally, h0]
      · by_cases hex : ∃ x ∈ l, x.sku = s
        · have hex' : ∃ x ∈ l ++ [r], x.sku = s := by
            obtain ⟨x, hx, hxs⟩ := hex
            exact ⟨x, by simp [hx], hxs⟩
          simp only [hP, hrs, if_false, if_pos hex, if_pos hex', add_zero]
        · have hex' : ¬ ∃ x ∈ l ++ [r], x.sku = s := by
            rintro ⟨x, hx, hxs⟩
            rcases List.mem_append.mp hx with hx | hx
            · exact hex ⟨x, hx, hxs⟩
            · rw [List.mem_singleton] at hx; subst hx; exact hrs hxs
          simp only [hP, hrs, if_false, if_neg hex, if_neg hex']

/-- The running best after one more record: the record's sku takes over exactly
when it names no inherited member and its cumulative revenue is strictly
greater than the best so far. -/
theorem revenueLoop_best_append (l : List Sale) (r : Sale) :
    (revenueLoop (l ++ [r])).2 =
      if r.sku ∉ objectPrototypeMembers ∧
          totalRevenue (l ++ [r]) r.sku > (revenueLoop l).2.revenue then
        { revenue := totalRevenue (l ++ [r]) r.sku, sku := r.sku }
      else (revenueLoop l).2 := by
  rw [revenueLoop_append, revenueStep_best, revenueLoop_read, totalRevenue_append]
  by_cases hP : r.sku ∈ objectPrototypeMembers
  · simp [hP, JSValue.tally]
  · by_cases hex : ∃ x ∈ l, x.sku = r.sku
    · simp [hP, hex, JSValue.tally]
    · have h0 : totalRevenue l r.sku = 0 :=
        totalRevenue_eq_zero l r.sku (fun x hx hxs => hex ⟨x, hx, hxs⟩)
      simp [hP, hex, JSValue.tally, h0]

theorem totalRevenue_nonneg (l : List Sale) (hq : ∀ r ∈ l, 0 ≤ r.totalPrice) (s : String) :
    0 ≤ totalRevenue l s := by
  unfold totalRevenue
  apply List.sum_nonneg
  intro q hmem
  simp only [List.mem_map, List.mem_filter] at hmem
  obtain ⟨r, ⟨hr, -⟩, rfl⟩ := hmem
  exact hq r hr

theorem totalRevenue_le_append (l l' : List Sale) (hq : ∀ r ∈ l', 0 ≤ r.totalPrice)
    (s : String) : totalRevenue l s ≤ totalRevenue (l ++ l') s := by
  rw [totalRevenue_append_list]
  have := totalRevenue_nonneg l' hq s
  linarith

theorem totalRevenue_pos_of_mem (l : List Sale) (hq : ∀ r ∈ l, 0 ≤ r.totalPrice) (r : Sale)
    (hr : r ∈ l) (hpos : 0 < r.totalPrice) : 0 < totalRevenue l r.sku := by
  obtain ⟨l1, l2, rfl⟩ := List.append_of_mem hr
  have e : l1 ++ r :: l2 = (l1 ++ [r]) ++ l2 := by simp
  rw [e, totalRevenue_append_list, totalRevenue_append]
  have h1 := totalRevenue_nonneg l1 (fun x hx => hq x (by simp [hx])) r.sku
  have h2 := totalRevenue_nonneg l2 (fun x hx => hq x (by simp [hx])) r.sku
  simp only [if_true]
  linarith

/-- The cumulative revenue of a sku that names no inherited member is at most
the running best. -/
theorem revenueLoop_total_le (l : List Sale) (s : String)
    (hs : s ∉ objectPrototypeMembers) :
    totalRevenue l s ≤ (revenueLoop l).2.revenue := by
  induction l using List.reverseRecOn with
  | nil => simp [revenueLoop, totalRevenue]
  | append_singleton l r ih =>
    rw [revenueLoop_best_append]
    by_cases hgt : r.sku ∉ objectPrototypeMembers ∧
        totalRevenue (l ++ [r]) r.sku > (revenueLoop l).2.revenue
    · rw [if_pos hgt]
      by_cases hrs : r.sku = s
      · subst hrs; exact le_refl _
      · rw [totalRevenue_append, if_neg hrs, add_zero]
        exact le_trans ih (le_of_lt hgt.2)
    · rw [if_neg hgt]
      by_cases hrs : r.sku = s
      · subst hrs
        by_contra hc
        exact hgt ⟨hs, not_le.mp hc⟩
      · rw [totalRevenue_append, if_neg hrs, add_zero]
        exact ih

/-- With non-negative prices the running best never exceeds the cumulative
quantity of the sku that holds it. -/
theorem revenueLoop_best_le (l : List Sale) (hq : ∀ r ∈ l, 0 ≤ r.totalPrice) :
    (revenueLoop l).2.revenue ≤ totalRevenue l (revenueLoop l).2.sku := by
  induction l using List.reverseRecOn with
  | nil => simp [revenueLoop, totalRevenue]
  | append_singleton l r ih =>
    have hl : ∀ x ∈ l, 0 ≤ x.totalPrice := fun x hx => hq x (by simp [hx])
    have hr : ∀ x ∈ [r], 0 ≤ x.totalPrice := fun x hx => hq x (by simp_all)
    rw [revenueLoop_best_append]
    by_cases hgt : r.sku ∉ objectPrototypeMembers ∧
        totalRevenue (l ++ [r]) r.sku > (revenueLoop l).2.revenue
    · rw [if_pos hgt]
    · rw [if_neg hgt]
      exact le_trans (ih hl) (totalRevenue_le_append l [r] hr _)

/-- The running best is the initial placeholder, or a positive revenue held by
the sku of a record seen, which names no inherited member. -/
theorem revenueLoop_best_cases (l : List Sale) :
    ((revenueLoop l).2.sku = "" ∧ (revenueLoop l).2.revenue = 0) ∨
      (0 < (revenueLoop l).2.revenue ∧
        (revenueLoop l).2.sku ∉ objectPrototypeMembers ∧
        ∃ r ∈ l, r.sku = (revenueLoop l).2.sku) := by
  induction l using List.reverseRecOn with
  | nil => left; simp [revenueLoop]
  | append_singleton l r ih =>
    rw [revenueLoop_best_append]
    by_cases hgt : r.sku ∉ objectPrototypeMembers ∧
        totalRevenue (l ++ [r]) r.sku > (revenueLoop l).2.revenue
    · rw [if_pos hgt]
      right
      refine ⟨?_, hgt.1, r, by simp, rfl⟩
      have h0 : 0 ≤ (revenueLoop l).2.revenue := by
        rcases ih with h | h
        · exact le_of_eq h.2.symm
        · exact le_of_lt h.1
      exact lt_of_le_of_lt h0 hgt.2
    · rw [if_neg hgt]
      rcases ih with h | ⟨h1, h2, x, hx, hxs⟩
      · exact Or.inl h
      · exact Or.inr ⟨h1, h2, x, by simp [hx], hxs⟩

/-- The highest revenue loop reads only the sku and the total price of a record. -/
theorem revenueStep_congr (st : Obj (JSValue ℚ) × HighestRevenue) (r r' : Sale) (h1 : r.sku = r'.sku)
    (h2 : r.totalPrice = r'.totalPrice) : revenueStep st r = revenueStep st r' := by
  unfold revenueStep
  simp only [h1, h2]

theorem foldl_revenueStep_congr (l l' : List Sale) (st : Obj (JSValue ℚ) × HighestRevenue)
    (h : l.map (fun r => (r.sku, r.totalPrice)) = l'.map (fun r => (r.sku, r.totalPrice))) :
    l.foldl revenueStep st = l'.foldl revenueStep st := by
  induction l generalizing l' st with
  | nil =>
    cases l' with
    | nil => rfl
    | cons y l' => simp at h
  | cons x l ih =>
    cases l' with
    | nil => simp at h
    | cons y l' =>
      simp only [List.map_cons, List.cons.injEq, Prod.mk.injEq] at h
      rw [List.foldl_cons, List.foldl_cons, revenueStep_congr st x y h.1.1 h.1.2]
      exact ih l' _ h.2

theorem bucket_map_congr (newDate : String → Option JSDate) (xs ys : List Sale) (m : String)
    (h : ys.map (fun r => (r.date, r.sku, r.totalPrice)) =
      xs.map (fun r => (r.date, r.sku, r.totalPrice))) :
    (bucket newDate ys m).map (fun r => (r.sku, r.totalPrice)) =
      (bucket newDate xs m).map (fun r => (r.sku, r.totalPrice)) := by
  induction xs generalizing ys with
  | nil =>
    cases ys with
    | nil => rfl
    | cons y ys => simp at h
  | cons x xs ih =>
    cases ys with
    | nil => simp at h
    | cons y ys =>
      simp only [List.map_cons, List.cons.injEq, Prod.mk.injEq] at h
      obtain ⟨⟨hd, hs, hp⟩, ht⟩ := h
      have hmo : monthOf newDate y = monthOf newDate x := by simp [monthOf, hd]
      have := ih ys ht
      by_cases hm : monthOf newDate x = m
      · simp only [bucket, List.filter_cons, hmo, hm, decide_True, if_true, List.map_cons,
          hs, hp] at this ⊢
        rw [this]
      · simp only [bucket, List.filter_cons, hmo, hm, decide_False] at this ⊢
        exact this

/-! ## Minimum, maximum and mean -/

theorem foldl_min2_num (l : List Int) (a : Int) :
    l.foldl (fun (acc : JSNumber) (x : Int) => JSNumber.min2 acc (JSNumber.num (x : ℚ)))
        (JSNumber.num (a : ℚ)) =
      JSNumber.num ((l.foldl min a : Int) : ℚ) := by
  induction l generalizing a with
  | nil => rfl
  | cons x l ih =>
    rw [List.foldl_cons, List.foldl_cons, ← ih (min a x)]
    simp [JSNumber.min2, Int.cast_min]

theorem foldl_max2_num (l : List Int) (a : Int) :
    l.foldl (fun (acc : JSNumber) (x : Int) => JSNumber.max2 acc (JSNumber.num (x : ℚ)))
        (JSNumber.num (a : ℚ)) =
      JSNumber.num ((l.foldl max a : Int) : ℚ) := by
  induction l generalizing a with
  | nil => rfl
  | cons x l ih =>
    rw [List.foldl_cons, List.foldl_cons, ← ih (max a x)]
    simp [JSNumber.max2, Int.cast_max]

theorem foldl_min_spec (l : List Int) (a : Int) :
    (l.foldl min a = a ∨ l.foldl min a ∈ l) ∧ l.foldl min a ≤ a ∧
      ∀ x ∈ l, l.foldl min a ≤ x := by
  induction l generalizing a with
  | nil => simp
  | cons x l ih =>
    obtain ⟨h1, h2, h3⟩ := ih (min a x)
    rw [List.foldl_cons]
    refine ⟨?_, le_trans h2 (min_le_left _ _), ?_⟩
    · rcases h1 with h | h
      · rcases min_choice a x with hc | hc
        · left; rw [h, hc]
        · right; rw [h, hc]; simp
      · right; simp [h]
    · intro y hy
      rcases List.mem_cons.mp hy with rfl | hy
      · exact le_trans h2 (min_le_right _ _)
      · exact h3 y hy

theorem foldl_max_spec (l : List Int) (a : Int) :
    (l.foldl max a = a ∨ l.foldl max a ∈ l) ∧ a ≤ l.foldl max a ∧
      ∀ x ∈ l, x ≤ l.foldl max a := by
  induction l generalizing a with
  | nil => simp
  | cons x l ih =>
    obtain ⟨h1, h2, h3⟩ := ih (max a x)
    rw [List.foldl_cons]
    refine ⟨?_, le_trans (le_max_left _ _) h2, ?_⟩
    · rcases h1 with h | h
      · rcases max_choice a x with hc | hc
        · left; rw [h, hc]
        · right; rw [h, hc]; simp
      · right; simp [h]
    · intro y hy
      rcases List.mem_cons.mp hy with rfl | hy
      · exact le_trans (le_max_right _ _) h2
      · exact h3 y hy

/-- On a non-empty argument list `Math.min` is the least argument. -/
theorem mathMin_spec (qs : List Int) (hne : qs ≠ []) :
    ∃ lo : Int, mathMin qs = JSNumber.num lo ∧ lo ∈ qs ∧ ∀ q ∈ qs, lo ≤ q := by
  cases qs with
  | nil => exact absurd rfl hne
  | cons a l =>
    obtain ⟨h1, h2, h3⟩ := foldl_min_spec l a
    refine ⟨l.foldl min a, ?_, ?_, ?_⟩
    · unfold mathMin
      rw [List.foldl_cons]
      exact foldl_min2_num l a
    · rcases h1 with h | h
      · rw [h]; simp
      · simp [h]
    · intro q hq
      rcases List.mem_cons.mp hq with rfl | hq
      · exact h2
      · exact h3 q hq

/-- On a non-empty argument list `Math.max` is the greatest argument. -/
theorem mathMax_spec (qs : List Int) (hne : qs ≠ []) :
    ∃ hi : Int, mathMax qs = JSNumber.num hi ∧ hi ∈ qs ∧ ∀ q ∈ qs, q ≤ hi := by
  cases qs with
  | nil => exact absurd rfl hne
  | cons a l =>
    obtain ⟨h1, h2, h3⟩ := foldl_max_spec l a
    refine ⟨l.foldl max a, ?_, ?_, ?_⟩
    · unfold mathMax
      rw [List.foldl_cons]
      exact foldl_max2_num l a
    · rcases h1 with h | h
      · rw [h]; simp
      · simp [h]
    · intro q hq
      rcases List.mem_cons.mp hq with rfl | hq
      · exact h2
      · exact h3 q hq

theorem foldl_add_int (l : List Int) (a : Int) :
    l.foldl (fun sum count => sum + count) a = a + l.sum := by
  induction l generalizing a with
  | nil => simp
  | cons x l ih => simp [List.foldl_cons, ih, add_assoc]

theorem length_mul_le_sum (l : List Int) (lo : Int) (h : ∀ q ∈ l, lo ≤ q) :
    (l.length : Int) * lo ≤ l.sum := by
  induction l with
  | nil => simp
  | cons x l ih =>
    have hx := h x (by simp)
    have := ih (fun q hq => h q (by simp [hq]))
    simp only [List.length_cons, List.sum_cons, Nat.cast_add, Nat.cast_one]
    linarith

theorem sum_le_length_mul (l : List Int) (hi : Int) (h : ∀ q ∈ l, q ≤ hi) :
    l.sum ≤ (l.length : Int) * hi := by
  induction l with
  | nil => simp
  | cons x l ih =>
    have hx := h x (by simp)
    have := ih (fun q hq => h q (by simp [hq]))
    simp only [List.length_cons, List.sum_cons, Nat.cast_add, Nat.cast_one]
    linarith

/-- The statistics over a non-empty filtered set: least and greatest individual
quantity and their arithmetic mean. -/
theorem orderStatistics_nonempty (monthData : List Sale) (mp : MostPopular)
    (hne : (monthData.filter (fun sale => decide (sale.sku = mp.sku))).map
      (fun sale => sale.quantity) ≠ []) :
    ∃ lo hi : Int,
      (orderStatistics monthData mp).minOrders = JSNumber.num lo ∧
      lo ∈ (monthData.filter (fun sale => decide (sale.sku = mp.sku))).map
        (fun sale => sale.quantity) ∧
      (∀ q ∈ (monthData.filter (fun sale => decide (sale.sku = mp.sku))).map
        (fun sale => sale.quantity), lo ≤ q) ∧
      (orderStatistics monthData mp).maxOrders = JSNumber.num hi ∧
      hi ∈ (monthData.filter (fun sale => decide (sale.sku = mp.sku))).map
        (fun sale => sale.quantity) ∧
      (∀ q ∈ (monthData.filter (fun sale => decide (sale.sku = mp.sku))).map
        (fun sale => sale.quantity), q ≤ hi) ∧
      (orderStatistics monthData mp).avgOrders =
        JSNumber.num
          (((((monthData.filter (fun sale => decide (sale.sku = mp.sku))).map
              (fun sale => sale.quantity)).sum : Int) : ℚ) /
            (((monthData.filter (fun sale => decide (sale.sku = mp.sku))).map
              (fun sale => sale.quantity)).length : ℚ)) := by
  obtain ⟨lo, hlo, hlo1, hlo2⟩ := mathMin_spec _ hne
  obtain ⟨hi, hhi, hhi1, hhi2⟩ := mathMax_spec _ hne
  refine ⟨lo, hi, hlo, hlo1, hlo2, hhi, hhi1, hhi2, ?_⟩
  have hlen : ((((monthData.filter (fun sale => decide (sale.sku = mp.sku))).map
      (fun sale => sale.quantity)).length : ℚ)) ≠ 0 := by
    rw [Nat.cast_ne_zero]
    exact fun h => hne (List.length_eq_zero.mp h)
  show JSNumber.div _ _ = _
  rw [JSNumber.div, if_neg hlen, foldl_add_int, zero_add]

/-- The statistics over an empty filtered set. -/
theorem orderStatistics_empty (monthData : List Sale) (mp : MostPopular)
    (he : (monthData.filter (fun sale => decide (sale.sku = mp.sku))).map
      (fun sale => sale.quantity) = []) :
    orderStatistics monthData mp =
      { minOrders := JSNumber.posInf, maxOrders := JSNumber.negInf,
        avgOrders := JSNumber.nan } := by
  unfold orderStatistics
  simp only [he]
  simp [mathMin, mathMax, JSNumber.div]

theorem mean_bounds (l : List Int) (lo hi : Int) (hne : l ≠ []) (h1 : ∀ q ∈ l, lo ≤ q)
    (h2 : ∀ q ∈ l, q ≤ hi) :
    (lo : ℚ) ≤ ((l.sum : Int) : ℚ) / (l.length : ℚ) ∧
      ((l.sum : Int) : ℚ) / (l.length : ℚ) ≤ (hi : ℚ) := by
  have hlen : (0 : ℚ) < (l.length : ℚ) := by
    rw [Nat.cast_pos]; exact List.length_pos.mpr hne
  have a1 := length_mul_le_sum l lo h1
  have a2 := sum_le_length_mul l hi h2
  have b1 : ((l.length : ℚ)) * (lo : ℚ) ≤ ((l.sum : Int) : ℚ) := by exact_mod_cast a1
  have b2 : ((l.sum : Int) : ℚ) ≤ ((l.length : ℚ)) * (hi : ℚ) := by exact_mod_cast a2
  constructor
  · rw [le_div_iff₀ hlen]; linarith
  · rw [div_le_iff₀ hlen]; linarith

/-- The bounds `minOrders ≤ avgOrders ≤ maxOrders` hold exactly when the filtered
set of the statistics is not empty. -/
theorem orderStatistics_bounds_iff (monthData : List Sale) (mp : MostPopular) :
    (JSNumber.le (orderStatistics monthData mp).minOrders
        (orderStatistics monthData mp).avgOrders ∧
      JSNumber.le (orderStatistics monthData mp).avgOrders
        (orderStatistics monthData mp).maxOrders) ↔
      (monthData.filter (fun sale => decide (sale.sku = mp.sku))).map
        (fun sale => sale.quantity) ≠ [] := by
  constructor
  · intro h he
    rw [orderStatistics_empty monthData mp he] at h
    exact h.1
  · intro hne
    obtain ⟨lo, hi, g1, -, g3, g4, -, g6, g7⟩ := orderStatistics_nonempty monthData mp hne
    obtain ⟨b1, b2⟩ := mean_bounds _ lo hi hne g3 g6
    rw [g1, g4, g7]
    exact ⟨b1, b2⟩

/-! ## Month labels -/

/-- The label of a valid date is never the label of the invalid date. -/
theorem toLocaleString_some_ne (d : JSDate) : toLocaleString (some d) ≠ "Invalid Date" := by
  obtain ⟨y, mth⟩ := d
  intro h
  have h2 := congrArg (fun s => s.data.head?) h
  fin_cases mth <;> simp [toLocaleString, monthNames, String.data_append] at h2

/-- A month label never names a member inherited from `Object.prototype`, so the
objects keyed by month labels behave as plain dictionaries. -/
theorem toLocaleString_not_inherited (d : Option JSDate) :
    toLocaleString d ∉ objectPrototypeMembers := by
  cases d with
  | none => decide
  | some d =>
    obtain ⟨y, mth⟩ := d
    intro hmem
    have key : ∀ k ∈ objectPrototypeMembers,
        k.data.head? ≠ (toLocaleString (some ⟨y, mth⟩)).data.head? := by
      intro k hk
      simp only [objectPrototypeMembers, List.mem_cons, List.mem_singleton,
        List.not_mem_nil, or_false] at hk
      rcases hk with rfl | rfl | rfl | rfl | rfl | rfl | rfl | rfl | rfl | rfl | rfl | rfl <;>
        fin_cases mth <;> simp [toLocaleString, monthNames, String.data_append]
    exact key _ hmem rfl

theorem monthOf_eq_invalid_iff (newDate : String → Option JSDate) (r : Sale) :
    monthOf newDate r = "Invalid Date" ↔ newDate r.date = none := by
  unfold monthOf
  cases h : newDate r.date with
  | none => simp [toLocaleString]
  | some d => simp [toLocaleString_some_ne d]

/-! ## Total sales and the month keys -/

/-- C1: for every record sequence and every permutation of it, `totalSales` is
the sum of `totalPrice` over all the records, hence the same for both orders. -/
theorem totalSales_eq_sum_of_perm (newDate : String → Option JSDate) (xs ys : List Sale)
    (h : xs.Perm ys) :
    ∃ rx ry, generateSalesReport newDate xs = Except.ok rx ∧
      generateSalesReport newDate ys = Except.ok ry ∧
      rx.totalSales = (xs.map (fun sale => sale.totalPrice)).sum ∧
      ry.totalSales = (ys.map (fun sale => sale.totalPrice)).sum ∧
      ry.totalSales = rx.totalSales := by
  obtain ⟨rx, hx, tx, -⟩ := generateSalesReport_spec newDate xs
  obtain ⟨ry, hy, ty, -⟩ := generateSalesReport_spec newDate ys
  rw [foldl_totalPrice, zero_add] at tx ty
  refine ⟨rx, ry, hx, hy, tx, ty, ?_⟩
  rw [tx, ty]
  exact ((h.map (fun sale => sale.totalPrice)).sum_eq).symm

/-- Witness for C1: the scenario and the scenario with its first two records
exchanged. -/
theorem totalSales_eq_sum_of_perm_witness :
    scenario.Perm scenarioSwapped ∧
      ∃ rx ry, generateSalesReport demoDate scenario = Except.ok rx ∧
        generateSalesReport demoDate scenarioSwapped = Except.ok ry ∧
        rx.totalSales = (scenario.map (fun sale => sale.totalPrice)).sum ∧
        ry.totalSales = (scenarioSwapped.map (fun sale => sale.totalPrice)).sum ∧
        ry.totalSales = rx.totalSales :=
  ⟨List.Perm.swap _ _ _,
    totalSales_eq_sum_of_perm demoDate scenario scenarioSwapped (List.Perm.swap _ _ _)⟩

/-- C2: the four maps of the report have the same month keys, in the same
order. -/
theorem report_keys_identical (newDate : String → Option JSDate) (xs : List Sale) :
    ∃ rep, generateSalesReport newDate xs = Except.ok rep ∧
      rep.mostPopularItem.keys = rep.monthlySales.keys ∧
      rep.highestRevenueItem.keys = rep.monthlySales.keys ∧
      rep.itemStatistics.keys = rep.monthlySales.keys := by
  obtain ⟨rep, hr, -, hk, -⟩ := generateSalesReport_spec newDate xs
  exact ⟨rep, hr, hk⟩

/-- C3: `monthlySales` has an entry for `m` exactly when some record has month
key `m`; the entry is the sum of `totalPrice` over the records of month `m`; and
any input with the same records of month `m` gives the same entry. -/
theorem monthlySales_eq_sum_of_month (newDate : String → Option JSDate) (xs : List Sale)
    (m : String) :
    ∃ rep, generateSalesReport newDate xs = Except.ok rep ∧
      (rep.monthlySales.get m ≠ none ↔ ∃ r ∈ xs, monthOf newDate r = m) ∧
      ((∃ r ∈ xs, monthOf newDate r = m) →
        rep.monthlySales.get m =
          some (((xs.filter (fun r => decide (monthOf newDate r = m))).map
            (fun r => r.totalPrice)).sum)) ∧
      ∀ ys : List Sale,
        ys.filter (fun r => decide (monthOf newDate r = m)) =
            xs.filter (fun r => decide (monthOf newDate r = m)) →
          ∃ rep', generateSalesReport newDate ys = Except.ok rep' ∧
            rep'.monthlySales.get m = rep.monthlySales.get m := by
  obtain ⟨rep, hr, -, -, hm⟩ := generateSalesReport_spec newDate xs
  have key : ∀ (zs : List Sale) (rz : Report),
      (bucket newDate zs m = [] → rz.monthlySales.get m = none) →
      (bucket newDate zs m ≠ [] → rz.monthlySales.get m =
        some ((bucket newDate zs m).foldl (fun acc sale => acc + sale.totalPrice) 0)) →
      rz.monthlySales.get m =
        if bucket newDate zs m = [] then none
        else some (((bucket newDate zs m).map (fun r => r.totalPrice)).sum) := by
    intro zs rz h0 h1
    by_cases hb : bucket newDate zs m = []
    · simp [hb, h0 hb]
    · rw [h1 hb, foldl_totalPrice, zero_add]; simp [hb]
  have hx := key xs rep (fun hb => ((hm m).1 hb).1) (fun hb => ((hm m).2 hb).1)
  refine ⟨rep, hr, ?_, ?_, ?_⟩
  · rw [hx, ← not_iff_not, not_not, ← bucket_eq_nil_iff]
    by_cases hb : bucket newDate xs m = [] <;> simp [hb]
  · intro he
    have hb : bucket newDate xs m ≠ [] := by
      rw [Ne, bucket_eq_nil_iff]; exact not_not.mpr he
    rw [hx]; simp only [hb, if_false]; rfl
  · intro ys hys
    obtain ⟨rep', hr', -, -, hm'⟩ := generateSalesReport_spec newDate ys
    have hy := key ys rep' (fun hb => ((hm' m).1 hb).1) (fun hb => ((hm' m).2 hb).1)
    have hbb : bucket newDate ys m = bucket newDate xs m := hys
    exact ⟨rep', hr', by rw [hy, hx, hbb]⟩

/-- Witness for C3: in `twoMonths` the January entry is 35, and the February
record of the same sku A is not part of it. -/
theorem monthlySales_eq_sum_of_month_witness :
    (∃ r ∈ twoMonths, monthOf demoDate r = "January 2024") ∧
      ∃ rep, generateSalesReport demoDate twoMonths = Except.ok rep ∧
        rep.monthlySales.get "January 2024" = some 35 := by
  have hex : ∃ r ∈ twoMonths, monthOf demoDate r = "January 2024" :=
    ⟨_, List.mem_cons_self _ _, by decide⟩
  obtain ⟨rep, hr, -, h2, -⟩ :=
    monthlySales_eq_sum_of_month demoDate twoMonths "January 2024"
  refine ⟨hex, rep, hr, ?_⟩
  rw [h2 hex]
  have hf : twoMonths.filter (fun r => decide (monthOf demoDate r = "January 2024")) =
      [ { date := "2024-01-15", sku := "A", unitPrice := 10, quantity := 2, totalPrice := 20 },
        { date := "2024-01-15", sku := "B", unitPrice := 3, quantity := 5, totalPrice := 15 } ] := by
    decide
  rw [hf]
  norm_num

/-! ## The most popular item -/

/-- On an input whose skus name no inherited member, with non-negative
quantities, in a month that has a record of positive quantity,
`mostPopularItem[m]` is the sku of a record of month `m` and its cumulative
quantity in that month is at least that of every sku. -/
theorem mostPopularItem_is_greatest_of_plain_skus (newDate : String → Option JSDate)
    (xs : List Sale) (m : String) (hP : ∀ r ∈ xs, r.sku ∉ objectPrototypeMembers)
    (hq : ∀ r ∈ xs, 0 ≤ r.quantity)
    (hpos : ∃ r ∈ xs, monthOf newDate r = m ∧ 0 < r.quantity) :
    ∃ rep s, generateSalesReport newDate xs = Except.ok rep ∧
      rep.mostPopularItem.get m = some s ∧
      (∃ r ∈ xs, monthOf newDate r = m ∧ r.sku = s) ∧
      ∀ s', totalQuantity (bucket newDate xs m) s' ≤ totalQuantity (bucket newDate xs m) s := by
  obtain ⟨rep, hr, -, -, hm⟩ := generateSalesReport_spec newDate xs
  obtain ⟨r0, hr0, hr0m, hr0q⟩ := hpos
  have hmemb : ∀ r, r ∈ bucket newDate xs m ↔ r ∈ xs ∧ monthOf newDate r = m := by
    intro r; simp [bucket, List.mem_filter]
  have hr0b : r0 ∈ bucket newDate xs m := (hmemb r0).2 ⟨hr0, hr0m⟩
  have hb : bucket newDate xs m ≠ [] := List.ne_nil_of_mem hr0b
  have hqb : ∀ r ∈ bucket newDate xs m, 0 ≤ r.quantity :=
    fun r hrb => hq r ((hmemb r).1 hrb).1
  refine ⟨rep, (popularLoop (bucket newDate xs m)).2.sku, hr, ((hm m).2 hb).2.1, ?_, ?_⟩
  · obtain ⟨r, hrb, hrs⟩ := popularLoop_sku_mem_of_pos (bucket newDate xs m) hqb
      ⟨r0, hr0b, hr0q, hP r0 hr0⟩
    exact ⟨r, ((hmemb r).1 hrb).1, ((hmemb r).1 hrb).2, hrs⟩
  · intro s'
    have hbest := popularLoop_best_le _ hqb
    by_cases hs' : s' ∈ objectPrototypeMembers
    · have h0 : totalQuantity (bucket newDate xs m) s' = 0 :=
        totalQuantity_eq_zero _ _
          (fun r hrb hrs => hP r ((hmemb r).1 hrb).1 (hrs ▸ hs'))
      have h1 := totalQuantity_nonneg _ hqb (popularLoop (bucket newDate xs m)).2.sku
      omega
    · exact le_trans (popularLoop_total_le _ s' hs') hbest

/-- The scenario of the specification, where B with total 5 beats A with total 3. -/
theorem scenario_mostPopularItem :
    ∃ rep, generateSalesReport demoDate scenario = Except.ok rep ∧
      rep.mostPopularItem.get "January 2024" = some "B" :=
  ⟨_, rfl, by decide⟩

theorem inheritedSku_bucket : bucket demoDate inheritedSku "January 2024" = inheritedSku := by
  decide

/-- C4, at the failing input `inheritedSku`: the quantities are non-negative and
January 2024 has a record of positive quantity, yet `mostPopularItem` is B, whose
cumulative quantity 2 is less than the 5 of the sku `constructor`. -/
theorem mostPopularItem_misses_inherited_sku :
    (∀ r ∈ inheritedSku, 0 ≤ r.quantity) ∧
      (∃ r ∈ inheritedSku, monthOf demoDate r = "January 2024" ∧ 0 < r.quantity) ∧
      ∃ rep, generateSalesReport demoDate inheritedSku = Except.ok rep ∧
        rep.mostPopularItem.get "January 2024" = some "B" ∧
        totalQuantity (bucket demoDate inheritedSku "January 2024") "B" = 2 ∧
        totalQuantity (bucket demoDate inheritedSku "January 2024") "constructor" = 5 :=
  ⟨by decide, by decide, _, rfl, by decide, by decide, by decide⟩

/-- On an input whose skus name no inherited member, with non-negative
quantities, when the greatest cumulative quantity `M` of month `m` is positive,
some record of the month is the first after which a cumulative quantity reaches
`M`, and `mostPopularItem[m]` is that record's sku; a sku that reaches `M` later
does not replace it. -/
theorem mostPopularItem_first_to_reach_of_plain_skus (newDate : String → Option JSDate)
    (xs : List Sale) (m : String) (M : Int)
    (hP : ∀ r ∈ xs, r.sku ∉ objectPrototypeMembers) (hq : ∀ r ∈ xs, 0 ≤ r.quantity)
    (hM : 0 < M) (hmax : ∀ s, totalQuantity (bucket newDate xs m) s ≤ M)
    (hatt : ∃ s, totalQuantity (bucket newDate xs m) s = M) :
    ∃ rep, generateSalesReport newDate xs = Except.ok rep ∧
      (∃ pre r post, bucket newDate xs m = pre ++ r :: post ∧
        (∀ s, totalQuantity pre s < M) ∧ totalQuantity (pre ++ [r]) r.sku = M) ∧
      ∀ pre r post, bucket newDate xs m = pre ++ r :: post →
        (∀ s, totalQuantity pre s < M) → totalQuantity (pre ++ [r]) r.sku = M →
        rep.mostPopularItem.get m = some r.sku := by
  obtain ⟨rep, hr, -, -, hm⟩ := generateSalesReport_spec newDate xs
  have hmemb : ∀ r, r ∈ bucket newDate xs m → r ∈ xs := by
    intro r hrb
    simp only [bucket, List.mem_filter] at hrb
    exact hrb.1
  have hqb : ∀ r ∈ bucket newDate xs m, 0 ≤ r.quantity := fun r hrb => hq r (hmemb r hrb)
  refine ⟨rep, hr, ?_, ?_⟩
  · obtain ⟨s, hs⟩ := hatt
    obtain ⟨pre, r, post, e, h1, h2⟩ :=
      exists_first_to_reach M hM (bucket newDate xs m) ⟨s, le_of_eq hs.symm⟩
    refine ⟨pre, r, post, e, h1, le_antisymm ?_ h2⟩
    have e' : bucket newDate xs m = (pre ++ [r]) ++ post := by simp [e]
    have hpost : ∀ x ∈ post, 0 ≤ x.quantity := fun x hx => hqb x (by simp [e, hx])
    have := hmax r.sku
    rw [e'] at this
    exact le_trans (totalQuantity_le_append _ post hpost _) this
  · intro pre r post e h1 h2
    have hb : bucket newDate xs m ≠ [] := by simp [e]
    have hrP : r.sku ∉ objectPrototypeMembers := hP r (hmemb r (by simp [e]))
    rw [((hm m).2 hb).2.1, e]
    rw [e] at hqb hmax
    rw [popularLoop_first_to_reach M pre r post hqb hrP hmax h1 h2]

theorem tieScenario_total_le (s : String) :
    totalQuantity (bucket demoDate tieScenario "January 2024") s ≤ 3 := by
  have hb : bucket demoDate tieScenario "January 2024" = tieScenario := by decide
  rw [hb]
  by_cases hA : "A" = s
  · subst hA; decide
  · by_cases hB : "B" = s
    · subst hB; decide
    · simp [totalQuantity, tieScenario, List.filter, hA, hB]

/-- The tie of `tieScenario`: both A and B end January with 3; A reached 3 first
and is selected. -/
theorem tieScenario_mostPopularItem :
    totalQuantity (bucket demoDate tieScenario "January 2024") "A" = 3 ∧
      totalQuantity (bucket demoDate tieScenario "January 2024") "B" = 3 ∧
      ∃ rep, generateSalesReport demoDate tieScenario = Except.ok rep ∧
        rep.mostPopularItem.get "January 2024" = some "A" :=
  ⟨by decide, by decide, _, rfl, by decide⟩

theorem inheritedSku_total_le (s : String) :
    totalQuantity (bucket demoDate inheritedSku "January 2024") s ≤ 5 := by
  rw [inheritedSku_bucket]
  by_cases hA : "constructor" = s
  · subst hA; decide
  · by_cases hB : "B" = s
    · subst hB; decide
    · simp [totalQuantity, inheritedSku, List.filter, hA, hB]

/-- C6, at the failing input `inheritedSku`: the quantities are non-negative, the
greatest cumulative quantity of January 2024 is 5, and the first record after
which a cumulative quantity reaches 5 is the record of the sku `constructor`,
yet `mostPopularItem` is B. -/
theorem mostPopularItem_not_first_to_reach :
    (∀ r ∈ inheritedSku, 0 ≤ r.quantity) ∧
      (∀ s, totalQuantity (bucket demoDate inheritedSku "January 2024") s ≤ 5) ∧
      (∃ pre r post, bucket demoDate inheritedSku "January 2024" = pre ++ r :: post ∧
        (∀ s, totalQuantity pre s < 5) ∧ totalQuantity (pre ++ [r]) r.sku = 5 ∧
        r.sku = "constructor") ∧
      ∃ rep, generateSalesReport demoDate inheritedSku = Except.ok rep ∧
        rep.mostPopularItem.get "January 2024" = some "B" := by
  refine ⟨by decide, inheritedSku_total_le, ?_, _, rfl, by decide⟩
  refine ⟨[], _, _, inheritedSku_bucket, ?_, by decide, rfl⟩
  intro s
  rw [totalQuantity_nil]
  decide

/-! ## The highest revenue item -/

theorem revenueLoop_scenario : (revenueLoop scenario).2.sku = "A" := by
  simp [revenueLoop, scenario, revenueStep, Obj.read, Obj.write, Obj.get, Obj.set,
    JSValue.falsy, JSValue.plus, objectPrototypeMembers]
  norm_num

theorem scenario_report :
    ∃ rep, generateSalesReport demoDate scenario = Except.ok rep ∧
      rep.mostPopularItem.get "January 2024" = some "B" ∧
      rep.highestRevenueItem.get "January 2024" = some "A" := by
  obtain ⟨rep, hr, -, -, hm⟩ := generateSalesReport_spec demoDate scenario
  have hb : bucket demoDate scenario "January 2024" = scenario := by decide
  have hne : bucket demoDate scenario "January 2024" ≠ [] := by rw [hb]; simp [scenario]
  obtain ⟨-, h2, h3, -⟩ := (hm "January 2024").2 hne
  refine ⟨rep, hr, ?_, ?_⟩
  · rw [h2, hb]; decide
  · rw [h3, hb, revenueLoop_scenario]

/-- On an input whose skus name no inherited member, with non-negative prices,
in a month that has a record of positive `totalPrice`, `highestRevenueItem[m]`
is the sku of a record of month `m` and its cumulative revenue in that month is
at least that of every sku; it is the same for any input with the same dates,
skus and prices, whatever the quantities. -/
theorem highestRevenueItem_is_greatest_of_plain_skus (newDate : String → Option JSDate)
    (xs : List Sale) (m : String) (hP : ∀ r ∈ xs, r.sku ∉ objectPrototypeMembers)
    (hq : ∀ r ∈ xs, 0 ≤ r.totalPrice)
    (hpos : ∃ r ∈ xs, monthOf newDate r = m ∧ 0 < r.totalPrice) :
    ∃ rep s, generateSalesReport newDate xs = Except.ok rep ∧
      rep.highestRevenueItem.get m = some s ∧
      (∃ r ∈ xs, monthOf newDate r = m ∧ r.sku = s) ∧
      (∀ s', totalRevenue (bucket newDate xs m) s' ≤ totalRevenue (bucket newDate xs m) s) ∧
      ∀ ys : List Sale,
        ys.map (fun r => (r.date, r.sku, r.totalPrice)) =
            xs.map (fun r => (r.date, r.sku, r.totalPrice)) →
          ∃ rep', generateSalesReport newDate ys = Except.ok rep' ∧
            rep'.highestRevenueItem.get m = some s := by
  obtain ⟨rep, hr, -, -, hm⟩ := generateSalesReport_spec newDate xs
  obtain ⟨r0, hr0, hr0m, hr0q⟩ := hpos
  have hmemb : ∀ r, r ∈ bucket newDate xs m ↔ r ∈ xs ∧ monthOf newDate r = m := by
    intro r; simp [bucket, List.mem_filter]
  have hr0b : r0 ∈ bucket newDate xs m := (hmemb r0).2 ⟨hr0, hr0m⟩
  have hb : bucket newDate xs m ≠ [] := List.ne_nil_of_mem hr0b
  have hqb : ∀ r ∈ bucket newDate xs m, 0 ≤ r.totalPrice :=
    fun r hrb => hq r ((hmemb r).1 hrb).1
  have hbest := revenueLoop_best_le _ hqb
  refine ⟨rep, (revenueLoop (bucket newDate xs m)).2.sku, hr, ((hm m).2 hb).2.2.1,
    ?_, ?_, ?_⟩
  · have hpos0 := totalRevenue_pos_of_mem _ hqb r0 hr0b hr0q
    have hle := revenueLoop_total_le (bucket newDate xs m) r0.sku (hP r0 hr0)
    rcases revenueLoop_best_cases (bucket newDate xs m) with ⟨-, h0⟩ | ⟨-, -, r, hrb, hrs⟩
    · linarith
    · exact ⟨r, ((hmemb r).1 hrb).1, ((hmemb r).1 hrb).2, hrs⟩
  · intro s'
    by_cases hs' : s' ∈ objectPrototypeMembers
    · have h0 : totalRevenue (bucket newDate xs m) s' = 0 :=
        totalRevenue_eq_zero _ _
          (fun r hrb hrs => hP r ((hmemb r).1 hrb).1 (hrs ▸ hs'))
      have h1 := totalRevenue_nonneg _ hqb (revenueLoop (bucket newDate xs m)).2.sku
      linarith
    · exact le_trans (revenueLoop_total_le _ s' hs') hbest
  · intro ys hys
    obtain ⟨rep', hr', -, -, hm'⟩ := generateSalesReport_spec newDate ys
    have hmap := bucket_map_congr newDate xs ys m hys
    have hb' : bucket newDate ys m ≠ [] := by
      intro h0
      rw [h0] at hmap
      exact hb (List.map_eq_nil_iff.mp hmap.symm)
    refine ⟨rep', hr', ?_⟩
    rw [((hm' m).2 hb').2.2.1]
    unfold revenueLoop
    rw [foldl_revenueStep_congr _ _ _ hmap]

theorem revenueLoop_inheritedSku : (revenueLoop inheritedSku).2.sku = "B" := by
  simp [revenueLoop, inheritedSku, revenueStep, Obj.read, Obj.write, Obj.get, Obj.set,
    JSValue.falsy, JSValue.plus, objectPrototypeMembers]

/-- C5, at the failing input `inheritedSku`: the prices are non-negative and
January 2024 has a record of positive `totalPrice`, yet `highestRevenueItem` is
B, whose cumulative revenue 2 is less than the 5 of the sku `constructor`. -/
theorem highestRevenueItem_misses_inherited_sku :
    (∀ r ∈ inheritedSku, 0 ≤ r.totalPrice) ∧
      (∃ r ∈ inheritedSku, monthOf demoDate r = "January 2024" ∧ 0 < r.totalPrice) ∧
      ∃ rep, generateSalesReport demoDate inheritedSku = Except.ok rep ∧
        rep.highestRevenueItem.get "January 2024" = some "B" ∧
        totalRevenue (bucket demoDate inheritedSku "January 2024") "B" = 2 ∧
        totalRevenue (bucket demoDate inheritedSku "January 2024") "constructor" = 5 := by
  obtain ⟨rep, hr, -, -, hm⟩ := generateSalesReport_spec demoDate inheritedSku
  have hne : bucket demoDate inheritedSku "January 2024" ≠ [] := by
    rw [inheritedSku_bucket]; simp [inheritedSku]
  obtain ⟨-, -, h3, -⟩ := (hm "January 2024").2 hne
  have h1 : ∀ r ∈ inheritedSku, 0 ≤ r.totalPrice := by
    intro r hr
    simp only [inheritedSku, List.mem_cons, List.mem_singleton, List.not_mem_nil,
      or_false] at hr
    rcases hr with rfl | rfl <;> norm_num
  refine ⟨h1, ⟨_, List.mem_cons_self _ _, by decide, by norm_num⟩, rep, hr, ?_, ?_, ?_⟩
  · rw [h3, inheritedSku_bucket, revenueLoop_inheritedSku]
  · rw [inheritedSku_bucket]
    simp [totalRevenue, inheritedSku, List.filter]
  · rw [inheritedSku_bucket]
    simp [totalRevenue, inheritedSku, List.filter]

/-! ## The order statistics -/

theorem orderQuantities_ne_nil_iff (newDate : String → Option JSDate) (xs : List Sale)
    (m s : String) :
    orderQuantities newDate xs m s ≠ [] ↔ ∃ r ∈ xs, monthOf newDate r = m ∧ r.sku = s := by
  unfold orderQuantities bucket
  rw [Ne, List.map_eq_nil_iff, List.filter_eq_nil_iff]
  simp only [List.mem_filter, decide_eq_true_eq, not_forall, not_not]
  constructor
  · rintro ⟨r, ⟨h1, h2⟩, h3⟩; exact ⟨r, h1, h2, h3⟩
  · rintro ⟨r, h1, h2, h3⟩; exact ⟨r, ⟨h1, h2⟩, h3⟩

/-- C9: in a month `m` in which some record has the sku `s = mostPopularItem[m]`,
`minOrders`, `maxOrders` and `avgOrders` are the least, the greatest and the
arithmetic mean of the individual quantities of exactly the records of month
`m` with sku `s`. -/
theorem itemStatistics_of_most_popular (newDate : String → Option JSDate) (xs : List Sale)
    (m s : String)
    (hpop : ∃ rep, generateSalesReport newDate xs = Except.ok rep ∧
      rep.mostPopularItem.get m = some s)
    (hs : ∃ r ∈ xs, monthOf newDate r = m ∧ r.sku = s) :
    ∃ rep st, ∃ lo hi : Int, generateSalesReport newDate xs = Except.ok rep ∧
      rep.itemStatistics.get m = some st ∧
      st.minOrders = JSNumber.num lo ∧ lo ∈ orderQuantities newDate xs m s ∧
      (∀ q ∈ orderQuantities newDate xs m s, lo ≤ q) ∧
      st.maxOrders = JSNumber.num hi ∧ hi ∈ orderQuantities newDate xs m s ∧
      (∀ q ∈ orderQuantities newDate xs m s, q ≤ hi) ∧
      st.avgOrders =
        JSNumber.num ((((orderQuantities newDate xs m s).sum : Int) : ℚ) /
          ((orderQuantities newDate xs m s).length : ℚ)) := by
  obtain ⟨rep, hr, -, -, hm⟩ := generateSalesReport_spec newDate xs
  obtain ⟨rep0, hr0, hs0⟩ := hpop
  have hrep : rep0 = rep := by
    rw [hr] at hr0; exact (Except.ok.inj hr0).symm
  subst hrep
  have hb : bucket newDate xs m ≠ [] := by
    rw [Ne, bucket_eq_nil_iff, not_not]
    obtain ⟨r, h1, h2, -⟩ := hs
    exact ⟨r, h1, h2⟩
  obtain ⟨-, h2, -, h4⟩ := (hm m).2 hb
  have hsku : (popularLoop (bucket newDate xs m)).2.sku = s := by
    rw [h2] at hs0; exact Option.some.inj hs0
  have hne := (orderQuantities_ne_nil_iff newDate xs m s).2 hs
  unfold orderQuantities at hne
  rw [← hsku] at hne
  obtain ⟨lo, hi, g1, g2, g3, g4, g5, g6, g7⟩ :=
    orderStatistics_nonempty (bucket newDate xs m) (popularLoop (bucket newDate xs m)).2 hne
  rw [hsku] at g2 g3 g5 g6 g7
  exact ⟨rep0, _, lo, hi, hr, h4, g1, g2, g3, g4, g5, g6, by rw [g7]; rfl⟩

theorem scenario_statistics :
    ∃ rep, generateSalesReport demoDate scenario = Except.ok rep ∧
      rep.itemStatistics.get "January 2024" =
        some { minOrders := JSNumber.num 5, maxOrders := JSNumber.num 5,
               avgOrders := JSNumber.num 5 } := by
  obtain ⟨rep, hr, -, -, hm⟩ := generateSalesReport_spec demoDate scenario
  have hb : bucket demoDate scenario "January 2024" = scenario := by decide
  have hne : bucket demoDate scenario "January 2024" ≠ [] := by rw [hb]; simp [scenario]
  obtain ⟨-, -, -, h4⟩ := (hm "January 2024").2 hne
  have hp : (popularLoop scenario).2 = { quantity := 5, sku := "B" } := by decide
  refine ⟨rep, hr, ?_⟩
  rw [h4, hb, hp]
  simp [orderStatistics, scenario, mathMin, mathMax, JSNumber.min2, JSNumber.max2,
    JSNumber.div]

/-- Witness for C9: the scenario of the specification, where the statistics are
taken over the single order of B. -/
theorem itemStatistics_of_most_popular_witness :
    orderQuantities demoDate scenario "January 2024" "B" = [5] ∧
      (∃ rep st, ∃ lo hi : Int, generateSalesReport demoDate scenario = Except.ok rep ∧
        rep.itemStatistics.get "January 2024" = some st ∧
        st.minOrders = JSNumber.num lo ∧
        lo ∈ orderQuantities demoDate scenario "January 2024" "B" ∧
        (∀ q ∈ orderQuantities demoDate scenario "January 2024" "B", lo ≤ q) ∧
        st.maxOrders = JSNumber.num hi ∧
        hi ∈ orderQuantities demoDate scenario "January 2024" "B" ∧
        (∀ q ∈ orderQuantities demoDate scenario "January 2024" "B", q ≤ hi) ∧
        st.avgOrders =
          JSNumber.num
            ((((orderQuantities demoDate scenario "January 2024" "B").sum : Int) : ℚ) /
              ((orderQuantities demoDate scenario "January 2024" "B").length : ℚ))) ∧
      ∃ rep, generateSalesReport demoDate scenario = Except.ok rep ∧
        rep.itemStatistics.get "January 2024" =
          some { minOrders := JSNumber.num 5, maxOrders := JSNumber.num 5,
                 avgOrders := JSNumber.num 5 } :=
  ⟨by decide,
    itemStatistics_of_most_popular demoDate scenario "January 2024" "B"
      ⟨_, rfl, by decide⟩ ⟨_, List.mem_cons_of_mem _ (List.mem_cons_self _ _), by decide⟩,
    scenario_statistics⟩

/-- C7, as stated, fails: `zeroOrders` has non-negative quantities and January
2024 is a month of its report, yet the statistics of that month are `+Infinity`,
`-Infinity` and not-a-number, which are not ordered. -/
theorem statistic_bounds_fail_zero_quantity :
    (∀ r ∈ zeroOrders, 0 ≤ r.quantity) ∧
      ∃ rep st, generateSalesReport demoDate zeroOrders = Except.ok rep ∧
        rep.itemStatistics.get "January 2024" = some st ∧
        st = { minOrders := JSNumber.posInf, maxOrders := JSNumber.negInf,
               avgOrders := JSNumber.nan } ∧
        ¬ (JSNumber.le st.minOrders st.avgOrders ∧ JSNumber.le st.avgOrders st.maxOrders) := by
  obtain ⟨rep, hr, -, -, hm⟩ := generateSalesReport_spec demoDate zeroOrders
  have hb : bucket demoDate zeroOrders "January 2024" = zeroOrders := by decide
  have hne : bucket demoDate zeroOrders "January 2024" ≠ [] := by rw [hb]; simp [zeroOrders]
  obtain ⟨-, -, -, h4⟩ := (hm "January 2024").2 hne
  refine ⟨by decide, rep, _, hr, h4, ?_, ?_⟩
  · rw [hb]; exact orderStatistics_empty _ _ (by decide)
  · rw [hb, orderStatistics_empty _ _ (by decide)]
    exact fun h => h.1

/-- C7, amended: for a month `m` of the report, `minOrders ≤ avgOrders ≤ maxOrders`
holds exactly when some record of month `m` has the sku `mostPopularItem[m]`; it
holds in particular when the quantities are non-negative and the month has a
record of positive quantity whose sku names no member inherited from
`Object.prototype`. -/
theorem statistic_bounds_iff (newDate : String → Option JSDate) (xs : List Sale) (m : String)
    (hmonth : ∃ r ∈ xs, monthOf newDate r = m) :
    ∃ rep s st, generateSalesReport newDate xs = Except.ok rep ∧
      rep.mostPopularItem.get m = some s ∧ rep.itemStatistics.get m = some st ∧
      ((JSNumber.le st.minOrders st.avgOrders ∧ JSNumber.le st.avgOrders st.maxOrders) ↔
        ∃ r ∈ xs, monthOf newDate r = m ∧ r.sku = s) ∧
      ((∀ r ∈ xs, 0 ≤ r.quantity) →
        (∃ r ∈ xs, monthOf newDate r = m ∧ 0 < r.quantity ∧
          r.sku ∉ objectPrototypeMembers) →
        JSNumber.le st.minOrders st.avgOrders ∧ JSNumber.le st.avgOrders st.maxOrders) := by
  obtain ⟨rep, hr, -, -, hm⟩ := generateSalesReport_spec newDate xs
  have hb : bucket newDate xs m ≠ [] := by
    rw [Ne, bucket_eq_nil_iff, not_not]; exact hmonth
  obtain ⟨-, h2, -, h4⟩ := (hm m).2 hb
  have hmemb : ∀ r, r ∈ bucket newDate xs m ↔ r ∈ xs ∧ monthOf newDate r = m := by
    intro r; simp [bucket, List.mem_filter]
  have hiff := orderStatistics_bounds_iff (bucket newDate xs m)
    (popularLoop (bucket newDate xs m)).2
  have hq := orderQuantities_ne_nil_iff newDate xs m (popularLoop (bucket newDate xs m)).2.sku
  unfold orderQuantities at hq
  refine ⟨rep, _, _, hr, h2, h4, hiff.trans hq, ?_⟩
  intro hnn hpos
  apply hiff.2
  apply hq.2
  have hqb : ∀ r ∈ bucket newDate xs m, 0 ≤ r.quantity :=
    fun r hrb => hnn r ((hmemb r).1 hrb).1
  obtain ⟨r0, h0, h0m, h0q, h0P⟩ := hpos
  obtain ⟨r, hrb, hrs⟩ :=
    popularLoop_sku_mem_of_pos (bucket newDate xs m) hqb
      ⟨r0, (hmemb r0).2 ⟨h0, h0m⟩, h0q, h0P⟩
  exact ⟨r, ((hmemb r).1 hrb).1, ((hmemb r).1 hrb).2, hrs⟩

/-- Witness for the amended C7: January 2024 in the scenario of the
specification. -/
theorem statistic_bounds_iff_witness :
    (∃ r ∈ scenario, monthOf demoDate r = "January 2024") ∧
      ∃ rep s st, generateSalesReport demoDate scenario = Except.ok rep ∧
        rep.mostPopularItem.get "January 2024" = some s ∧
        rep.itemStatistics.get "January 2024" = some st ∧
        ((JSNumber.le st.minOrders st.avgOrders ∧ JSNumber.le st.avgOrders st.maxOrders) ↔
          ∃ r ∈ scenario, monthOf demoDate r = "January 2024" ∧ r.sku = s) ∧
        ((∀ r ∈ scenario, 0 ≤ r.quantity) →
          (∃ r ∈ scenario, monthOf demoDate r = "January 2024" ∧ 0 < r.quantity ∧
            r.sku ∉ objectPrototypeMembers) →
          JSNumber.le st.minOrders st.avgOrders ∧ JSNumber.le st.avgOrders st.maxOrders) :=
  ⟨by decide, statistic_bounds_iff demoDate scenario "January 2024" (by decide)⟩

/-- A month whose only sku names an inherited member keeps the placeholder, and
its statistics are taken over no record. -/
theorem inheritedOnly_report :
    ∃ rep, generateSalesReport demoDate inheritedOnly = Except.ok rep ∧
      rep.mostPopularItem.get "January 2024" = some "" ∧
      rep.itemStatistics.get "January 2024" =
        some { minOrders := JSNumber.posInf, maxOrders := JSNumber.negInf,
               avgOrders := JSNumber.nan } := by
  obtain ⟨rep, hr, -, -, hm⟩ := generateSalesReport_spec demoDate inheritedOnly
  have hb : bucket demoDate inheritedOnly "January 2024" = inheritedOnly := by decide
  have hne : bucket demoDate inheritedOnly "January 2024" ≠ [] := by
    rw [hb]; simp [inheritedOnly]
  obtain ⟨-, h2, -, h4⟩ := (hm "January 2024").2 hne
  refine ⟨rep, hr, ?_, ?_⟩
  · rw [h2, hb]; decide
  · rw [h4, hb, orderStatistics_empty _ _ (by decide)]

/-! ## Failures -/

/-- C8, as stated, fails: in `zeroOrders` no record of January 2024 has the sku
held by the running best of that month, and `generateSalesReport` returns a
report instead of failing with `EmptyGroupError`. -/
theorem empty_group_not_signalled :
    (∃ r ∈ zeroOrders, monthOf demoDate r = "January 2024") ∧
      (∀ r ∈ bucket demoDate zeroOrders "January 2024",
        r.sku ≠ (popularLoop (bucket demoDate zeroOrders "January 2024")).2.sku) ∧
      generateSalesReport demoDate zeroOrders ≠ Except.error ReportError.EmptyGroupError ∧
      ∃ rep, generateSalesReport demoDate zeroOrders = Except.ok rep ∧
        rep.mostPopularItem.get "January 2024" = some "" ∧
        rep.itemStatistics.get "January 2024" =
          some { minOrders := JSNumber.posInf, maxOrders := JSNumber.negInf,
                 avgOrders := JSNumber.nan } := by
  obtain ⟨rep, hr, -, -, hm⟩ := generateSalesReport_spec demoDate zeroOrders
  have hb : bucket demoDate zeroOrders "January 2024" = zeroOrders := by decide
  have hne : bucket demoDate zeroOrders "January 2024" ≠ [] := by rw [hb]; simp [zeroOrders]
  obtain ⟨-, h2, -, h4⟩ := (hm "January 2024").2 hne
  refine ⟨by decide, by decide, ?_, rep, hr, ?_, ?_⟩
  · rw [hr]; exact fun h => Except.noConfusion h
  · rw [h2, hb]; decide
  · rw [h4, hb, orderStatistics_empty _ _ (by decide)]

/-- C8, amended: `generateSalesReport` never fails; when no record of month `m`
has the sku `s = mostPopularItem[m]`, that sku is the empty placeholder and the
report holds `+Infinity`, `-Infinity` and not-a-number as the statistics of the
month. -/
theorem empty_group_statistics (newDate : String → Option JSDate) (xs : List Sale)
    (m s : String)
    (hpop : ∃ rep, generateSalesReport newDate xs = Except.ok rep ∧
      rep.mostPopularItem.get m = some s)
    (hnone : ∀ r ∈ xs, monthOf newDate r = m → r.sku ≠ s) :
    s = "" ∧ (∀ e, generateSalesReport newDate xs ≠ Except.error e) ∧
      ∃ rep, generateSalesReport newDate xs = Except.ok rep ∧
        rep.itemStatistics.get m =
          some { minOrders := JSNumber.posInf, maxOrders := JSNumber.negInf,
                 avgOrders := JSNumber.nan } := by
  obtain ⟨rep, hr, -, -, hm⟩ := generateSalesReport_spec newDate xs
  obtain ⟨rep0, hr0, hs0⟩ := hpop
  have hrep : rep0 = rep := by
    rw [hr] at hr0; exact (Except.ok.inj hr0).symm
  subst hrep
  have hb : bucket newDate xs m ≠ [] := by
    intro h0
    rw [((hm m).1 h0).2.1] at hs0
    exact Option.noConfusion hs0
  obtain ⟨-, h2, -, h4⟩ := (hm m).2 hb
  have hsku : (popularLoop (bucket newDate xs m)).2.sku = s := by
    rw [h2] at hs0; exact Option.some.inj hs0
  have hmemb : ∀ r, r ∈ bucket newDate xs m ↔ r ∈ xs ∧ monthOf newDate r = m := by
    intro r; simp [bucket, List.mem_filter]
  refine ⟨?_, ?_, rep0, hr, ?_⟩
  · rcases popularLoop_best_cases (bucket newDate xs m) with ⟨h, -⟩ | ⟨-, -, r, hrb, hrs⟩
    · rw [← hsku, h]
    · exact absurd (hrs.trans hsku) (hnone r ((hmemb r).1 hrb).1 ((hmemb r).1 hrb).2)
  · intro e h
    rw [hr] at h
    exact Except.noConfusion h
  · rw [h4]
    apply congrArg
    apply orderStatistics_empty
    rw [List.map_eq_nil_iff, List.filter_eq_nil_iff]
    intro r hrb
    rw [hsku]
    simpa using hnone r ((hmemb r).1 hrb).1 ((hmemb r).1 hrb).2

/-- Witness for the amended C8: January 2024 in `zeroOrders`. -/
theorem empty_group_statistics_witness :
    (∃ rep, generateSalesReport demoDate zeroOrders = Except.ok rep ∧
        rep.mostPopularItem.get "January 2024" = some "") ∧
      (∀ r ∈ zeroOrders, monthOf demoDate r = "January 2024" → r.sku ≠ "") ∧
      ("" = "" ∧ (∀ e, generateSalesReport demoDate zeroOrders ≠ Except.error e) ∧
        ∃ rep, generateSalesReport demoDate zeroOrders = Except.ok rep ∧
          rep.itemStatistics.get "January 2024" =
            some { minOrders := JSNumber.posInf, maxOrders := JSNumber.negInf,
                   avgOrders := JSNumber.nan }) :=
  ⟨⟨_, rfl, by decide⟩, by decide,
    empty_group_statistics demoDate zeroOrders "January 2024" "" ⟨_, rfl, by decide⟩
      (by decide)⟩

/-- C10, as stated, fails: `badDate` holds a record whose date does not parse,
and `generateSalesReport` returns a report in which that record is grouped
under the key `Invalid Date`. -/
theorem invalid_date_not_signalled :
    (∃ r ∈ badDate, demoDate r.date = none) ∧
      generateSalesReport demoDate badDate ≠ Except.error ReportError.InvalidDateError ∧
      ∃ rep, generateSalesReport demoDate badDate = Except.ok rep ∧
        rep.monthlySales.keys = ["Invalid Date", "January 2024"] ∧
        rep.mostPopularItem.get "Invalid Date" = some "A" :=
  ⟨by decide, fun h => Except.noConfusion h, _, rfl, by decide, by decide⟩

/-- C10, amended: `generateSalesReport` does not fail on a record whose date
does not parse; it returns a report in which the records with such a date, and
only they, form the month `Invalid Date`, a key of the four maps whose
`monthlySales` entry is the sum of their `totalPrice`. -/
theorem invalid_date_grouped (newDate : String → Option JSDate) (xs : List Sale) (r : Sale)
    (hr : r ∈ xs) (hbad : newDate r.date = none) :
    (∀ e, generateSalesReport newDate xs ≠ Except.error e) ∧
      ∃ rep, generateSalesReport newDate xs = Except.ok rep ∧
        r ∈ bucket newDate xs "Invalid Date" ∧
        bucket newDate xs "Invalid Date" =
          xs.filter (fun x => decide (newDate x.date = none)) ∧
        "Invalid Date" ∈ rep.monthlySales.keys ∧
        "Invalid Date" ∈ rep.mostPopularItem.keys ∧
        "Invalid Date" ∈ rep.highestRevenueItem.keys ∧
        "Invalid Date" ∈ rep.itemStatistics.keys ∧
        rep.monthlySales.get "Invalid Date" =
          some (((xs.filter (fun x => decide (newDate x.date = none))).map
            (fun x => x.totalPrice)).sum) := by
  obtain ⟨rep, hrep, -, ⟨k1, k2, k3⟩, hm⟩ := generateSalesReport_spec newDate xs
  have hbk : bucket newDate xs "Invalid Date" =
      xs.filter (fun x => decide (newDate x.date = none)) := by
    unfold bucket
    apply List.filter_congr
    intro x _
    simp only [monthOf_eq_invalid_iff]
  have hrb : r ∈ bucket newDate xs "Invalid Date" := by
    rw [hbk, List.mem_filter]; exact ⟨hr, by simpa using hbad⟩
  have hne : bucket newDate xs "Invalid Date" ≠ [] := List.ne_nil_of_mem hrb
  obtain ⟨h1, -, -, -⟩ := (hm "Invalid Date").2 hne
  have hkey : "Invalid Date" ∈ rep.monthlySales.keys := by
    by_contra hc
    rw [(Obj.get_eq_none_iff _ _).2 hc] at h1
    exact Option.noConfusion h1
  refine ⟨?_, rep, hrep, hrb, hbk, hkey, by rw [k1]; exact hkey, by rw [k2]; exact hkey,
    by rw [k3]; exact hkey, ?_⟩
  · intro e h
    rw [hrep] at h
    exact Except.noConfusion h
  · rw [h1, foldl_totalPrice, zero_add, hbk]

/-- Witness for the amended C10: the first record of `badDate`. -/
theorem invalid_date_grouped_witness :
    (∃ r ∈ badDate, demoDate r.date = none) ∧
      (∀ e, generateSalesReport demoDate badDate ≠ Except.error e) ∧
      ∃ rep, generateSalesReport demoDate badDate = Except.ok rep ∧
        "Invalid Date" ∈ rep.monthlySales.keys ∧
        rep.monthlySales.get "Invalid Date" =
          some (((badDate.filter (fun x => decide (demoDate x.date = none))).map
            (fun x => x.totalPrice)).sum) := by
  obtain ⟨h0, rep, h1, -, -, h4, -, -, -, h8⟩ :=
    invalid_date_grouped demoDate badDate
      { date := "not a date", sku := "A", unitPrice := 5, quantity := 1, totalPrice := 5 }
      (List.mem_cons_self _ _) (by decide)
  exact ⟨by decide, h0, rep, h1, h4, h8⟩

end SalesReport
